import Mathlib

/-!
Verification of the polars-styler core: a shallow embedding of
`src/colors.rs`, `src/styler.rs` and `src/renderer.rs` in Lean 4, together
with proofs settling the specification claims.

Modelling conventions:
* Rust `u8` channel values are `ℕ`; the `≤ 255` range guaranteed by the
  Rust type appears as an explicit hypothesis where it matters.
* Rust `f64` is modelled by `ℚ` (or by `F`, `ℚ` extended with a NaN point,
  where NaN propagation is observable).  The algorithms here only compare,
  add, subtract, multiply and divide values that are exactly representable,
  so the rational model mirrors the floating control flow faithfully; the
  one place where rounding matters (the `f32` cast inside
  `normalize_series`) is documented at its definition.
* Rust strings are byte lists (`List ℕ`) where byte indexing/slicing is
  semantically relevant (`from_hex`), and char lists (`List Char`) where
  the code works on characters (`from_rgb`).
* A Rust function that can panic is modelled with an explicit result
  constructor (`RustResult.crash`) or an `Except String` error carrying the
  panic message; `Result::Err(std::fmt::Error)` is `Except Unit`.
-/

namespace PolarsStyler

/-- Outcome of a Rust call that can return `Ok`, return `Err(fmt::Error)`,
or abort the process (panic).  `crash` models the panic/abort case. -/
inductive RustResult (α : Type) where
  | ok (a : α)
  | err
  | crash
deriving DecidableEq, Repr

instance {e a : Type} [DecidableEq e] [DecidableEq a] : DecidableEq (Except e a) := fun x y =>
  match x, y with
  | .ok u, .ok v => if h : u = v then isTrue (by rw [h]) else isFalse (by simp [h])
  | .error u, .error v => if h : u = v then isTrue (by rw [h]) else isFalse (by simp [h])
  | .ok _, .error _ => isFalse (by simp)
  | .error _, .ok _ => isFalse (by simp)

/-- `Color` from `src/colors.rs`: an RGB triple of `u8` channels, modelled
with `ℕ` channels (the `u8` bound `≤ 255` is `Color.Wf`). -/
structure Color where
  r : ℕ
  g : ℕ
  b : ℕ
deriving DecidableEq, Repr

/-- `Color::new` (`src/colors.rs`). -/
def Color.new (r g b : ℕ) : Color := ⟨r, g, b⟩

/-- The range invariant the Rust `u8` type enforces on every channel. -/
def Color.Wf (c : Color) : Prop := c.r ≤ 255 ∧ c.g ≤ 255 ∧ c.b ≤ 255

/-! ### Byte strings and UTF-8 slicing (for `from_hex`) -/

/-- A UTF-8 continuation byte (`0x80 ≤ b < 0xC0`).  Rust's
`str::is_char_boundary` rejects indices pointing at such a byte. -/
def isContByte (b : ℕ) : Bool := decide (128 ≤ b ∧ b < 192)

/-- Rust `str::is_char_boundary`: index `0` and the length are boundaries;
an interior index is a boundary iff the byte there is not a continuation
byte; an index past the end is not a boundary. -/
def isCharBoundary (s : List ℕ) (i : ℕ) : Bool :=
  if i = 0 then true
  else match s.get? i with
    | some b => !isContByte b
    | none => i == s.length

/-- Rust string slicing `&s[a..b]`: yields the bytes when both ends are
char boundaries (and `a ≤ b`), and panics (`none`) otherwise. -/
def strSlice (s : List ℕ) (a b : ℕ) : Option (List ℕ) :=
  if a ≤ b ∧ isCharBoundary s a ∧ isCharBoundary s b then
    some ((s.drop a).take (b - a))
  else none

/-! ### `u8::from_str_radix(_, 16)` on a byte slice -/

/-- Value of one hexadecimal digit byte (`0-9`, `a-f`, `A-F`). -/
def hexDigitVal (b : ℕ) : Option ℕ :=
  if 48 ≤ b ∧ b ≤ 57 then some (b - 48)
  else if 97 ≤ b ∧ b ≤ 102 then some (b - 87)
  else if 65 ≤ b ∧ b ≤ 70 then some (b - 55)
  else none

/-- Digit fold of `u8::from_str_radix(_, 16)` for a non-negative number:
multiply-accumulate with the `u8` overflow check (`≤ 255`) after each
digit, failing on a non-digit byte. -/
def hexFoldPos : List ℕ → ℕ → Option ℕ
  | [], acc => some acc
  | d :: t, acc =>
    match hexDigitVal d with
    | none => none
    | some v =>
      if 16 * acc + v ≤ 255 then hexFoldPos t (16 * acc + v) else none

/-- Digit fold of `u8::from_str_radix(_, 16)` after a `-` sign: for the
unsigned `u8` target the checked subtraction from zero fails on the first
non-zero digit, so the parse succeeds (with value 0) iff every digit is
`0`. -/
def hexFoldNeg : List ℕ → Option ℕ
  | [] => some 0
  | d :: t =>
    match hexDigitVal d with
    | none => none
    | some v => if v = 0 then hexFoldNeg t else none

/-- `u8::from_str_radix(s, 16)`: an optional single `+` (byte 43) or `-`
(byte 45) sign followed by at least one hex digit, with the `u8` overflow
check. -/
def u8_from_str_radix16 : List ℕ → Option ℕ
  | [] => none
  | c :: t =>
    if c = 43 then (if t = [] then none else hexFoldPos t 0)
    else if c = 45 then (if t = [] then none else hexFoldNeg t)
    else hexFoldPos (c :: t) 0

/-- `Color::from_hex` (`src/colors.rs` lines 19-27): reject byte lengths
other than 7, then parse the byte slices `[1..3]`, `[3..5]`, `[5..7]` as
hex `u8`s.  Each slice can panic on a non-char-boundary index (`crash`);
each parse failure is a `FormatError` (`err`).  The leading byte is never
inspected. -/
def Color.from_hex (s : List ℕ) : RustResult Color :=
  if s.length ≠ 7 then .err
  else
    match strSlice s 1 3 with
    | none => .crash
    | some rs =>
      match u8_from_str_radix16 rs with
      | none => .err
      | some r =>
        match strSlice s 3 5 with
        | none => .crash
        | some gs =>
          match u8_from_str_radix16 gs with
          | none => .err
          | some g =>
            match strSlice s 5 7 with
            | none => .crash
            | some bs =>
              match u8_from_str_radix16 bs with
              | none => .err
              | some b => .ok (Color.new r g b)

/-- Lowercase hex digit byte for a value `< 16` (the `{:02x}` digits). -/
def hexDigitChar (n : ℕ) : ℕ := if n < 10 then 48 + n else 87 + n

/-- The two bytes `format!("{:02x}", n)` produces for a `u8` value. -/
def byteHex (n : ℕ) : List ℕ := [hexDigitChar (n / 16), hexDigitChar (n % 16)]

/-- `Color::to_hex` (`src/colors.rs` lines 48-50):
`format!("#{:02x}{:02x}{:02x}", r, g, b)` as bytes (35 is `#`). -/
def Color.to_hex (c : Color) : List ℕ :=
  35 :: (byteHex c.r ++ byteHex c.g ++ byteHex c.b)

/-! ### `Color::from_rgb` (regex `rgb\((\d+), (\d+), (\d+)\)$`)

The regex crate's `\d` is the Unicode digit class, but a capture containing
a non-ASCII digit can never pass the subsequent `parse::<u8>()` (which
accepts ASCII digits only), and a pattern match never contains a nested
`rgb(`, so modelling `\d` as ASCII `Char.isDigit` is observationally
equivalent: the `Ok`/`Err` outcome and the returned triple agree with the
Rust code on every input. -/

/-- Greedy `\d+`: split off the longest ASCII-digit prefix. -/
def takeDigits : List Char → List Char × List Char
  | [] => ([], [])
  | c :: t =>
    if c.isDigit then
      let p := takeDigits t
      (c :: p.1, p.2)
    else ([], c :: t)

/-- Match `\d+, \d+, \d+\)$` against the remainder after a literal `rgb(`,
returning the three digit groups.  The `$` anchor demands the final `)` be
the last character. -/
def matchBody (rest : List Char) : Option (List Char × List Char × List Char) :=
  let p1 := takeDigits rest
  if p1.1 = [] then none
  else
    match p1.2 with
    | c5 :: c6 :: r2 =>
      if c5 = ',' ∧ c6 = ' ' then
        let p2 := takeDigits r2
        if p2.1 = [] then none
        else
          match p2.2 with
          | c7 :: c8 :: r4 =>
            if c7 = ',' ∧ c8 = ' ' then
              let p3 := takeDigits r4
              if p3.1 = [] then none
              else if p3.2 = [')'] then some (p1.1, p2.1, p3.1) else none
            else none
          | _ => none
      else none
    | _ => none

/-- Match the whole pattern `rgb\((\d+), (\d+), (\d+)\)$` at this exact
start position (the match must extend to the end of the input). -/
def matchAt (l : List Char) : Option (List Char × List Char × List Char) :=
  match l with
  | c1 :: c2 :: c3 :: c4 :: rest =>
    if c1 = 'r' ∧ c2 = 'g' ∧ c3 = 'b' ∧ c4 = '(' then matchBody rest else none
  | _ => none

/-- `Regex::captures`: the leftmost start position at which the pattern
matches (the pattern is anchored at the end by `$`, not at the start). -/
def findMatch (l : List Char) : Option (List Char × List Char × List Char) :=
  match l with
  | [] => none
  | _ :: t =>
    match matchAt l with
    | some m => some m
    | none => findMatch t

/-- Numeric value of an ASCII digit string (the fold `parse::<u8>` runs;
its incremental overflow check fires iff the total exceeds 255, since the
accumulator is monotone). -/
def digitsVal (l : List Char) : ℕ :=
  l.foldl (fun acc c => 10 * acc + (c.toNat - 48)) 0

/-- `Color::from_rgb` (`src/colors.rs` lines 29-42): run the regex, then
`parse::<u8>` each capture group; any parse overflow (value > 255) is a
`FormatError`, as is absence of a match. -/
def Color.from_rgb (s : List Char) : Except Unit Color :=
  match findMatch s with
  | none => .error ()
  | some (d1, d2, d3) =>
    if digitsVal d1 ≤ 255 ∧ digitsVal d2 ≤ 255 ∧ digitsVal d3 ≤ 255 then
      .ok (Color.new (digitsVal d1) (digitsVal d2) (digitsVal d3))
    else .error ()

/-! ### Gradient (`src/colors.rs` lines 92-112, 180-182) -/

/-- Saturating Rust cast `as u8` from the rounded `f64` (the `round()`
result is an integer; `as` clamps into `0..=255`). -/
def u8sat (z : ℤ) : ℕ := min z.toNat 255

/-- Free function `interpolate(x, y, a)` (`src/colors.rs` lines 180-182):
`(x as f64 * (1.0 - a) + y as f64 * a).round() as u8`.  Rust's `round`
rounds half away from zero; on the non-negative values arising here that
coincides with Mathlib's `round` (half up). -/
def interpolate (x y : ℕ) (a : ℚ) : ℕ :=
  u8sat (round ((x : ℚ) * (1 - a) + (y : ℚ) * a))

/-- `Gradient` (`src/colors.rs`): a start and end colour.  The Rust field
`end` is a Lean keyword, rendered `stop`. -/
structure Gradient where
  start : Color
  stop : Color
deriving DecidableEq, Repr

/-- `Gradient::new`. -/
def Gradient.new (start stop : Color) : Gradient := ⟨start, stop⟩

/-- `Gradient::interpolate` (`src/colors.rs` lines 103-111): reject
positions outside `[0, 1]` with a `RangeError` (`fmt::Error` in the code),
otherwise interpolate each channel. -/
def Gradient.interpolate (g : Gradient) (a : ℚ) : Except Unit Color :=
  if ¬(0 ≤ a ∧ a ≤ 1) then .error ()
  else .ok (Color.new (PolarsStyler.interpolate g.start.r g.stop.r a)
      (PolarsStyler.interpolate g.start.g g.stop.g a)
      (PolarsStyler.interpolate g.start.b g.stop.b a))

/-! ### ColorMap (`src/colors.rs` lines 114-178) -/

/-- `ColorBreakPoint`: a `(value, color)` anchor. -/
structure ColorBreakPoint where
  value : ℚ
  color : Color
deriving DecidableEq, Repr

/-- `ColorMap`: an ordered list of breakpoints (sortedness is a
caller-side invariant the constructor does not check). -/
structure ColorMap where
  v : List ColorBreakPoint
deriving DecidableEq, Repr

/-- itertools' `tuples()` over pairs: consecutive NON-overlapping chunks
of two, silently dropping a trailing odd element.  (This is what
`ColorMap::get` iterates; contrast `tuple_windows()`, which would yield
every adjacent overlapping pair.) -/
def tuples2 {α : Type} : List α → List (α × α)
  | a :: b :: t => (a, b) :: tuples2 t
  | _ => []

/-- The scan loop inside `ColorMap::get`: for each chunk pair, return the
left colour on exact equality with the left value, interpolate when the
query is below the right value, and otherwise continue. -/
def getLoop (value : ℚ) : List (ColorBreakPoint × ColorBreakPoint) → Option (Except Unit Color)
  | [] => none
  | (l, r) :: t =>
    if value = l.value then some (.ok l.color)
    else if value < r.value then
      some ((Gradient.new l.color r.color).interpolate
        ((value - l.value) / (r.value - l.value)))
    else getLoop value t

/-- `ColorMap::get` (`src/colors.rs` lines 160-177).  `self.v[0]` on an
empty map is an index panic in Rust, modelled as an error (no claim
touches empty maps).  After the loop the last breakpoint's colour is
returned. -/
def ColorMap.get (m : ColorMap) (value : ℚ) : Except Unit Color :=
  match m.v with
  | [] => .error ()
  | b0 :: _ =>
    if value < b0.value then .ok b0.color
    else
      match getLoop value (tuples2 m.v) with
      | some res => res
      | none => .ok (m.v.getLastD b0).color

/-- `ColorMap::from_palette` (`src/colors.rs` lines 147-158): breakpoint
`i` at value `i / (n - 1)`.  (For `n = 1` the Rust code divides `0.0` by
`0.0` giving NaN; the rational model gives `0`.  The spec requires `n ≥ 2`
and no claim uses a smaller palette.) -/
def ColorMap.from_palette (colors : List Color) : ColorMap :=
  ⟨colors.enum.map (fun p =>
    ⟨(p.1 : ℚ) / ((colors.length - 1 : ℕ) : ℚ), p.2⟩)⟩

/-! ### A NaN-aware float model for the normalization pipeline

`normalize_series` can divide zero by zero, which in `f64` produces NaN
that then flows into the rendered `rgba(...)` strings.  `F` is `ℚ` plus a
NaN point with propagation.  IEEE infinities are not modelled: in this
code a division's numerator is an element of `series - min(series)` and
its denominator the maximum of that series, so a zero denominator forces a
zero numerator (`0/0 = NaN`), never `x/0` with `x ≠ 0`. -/
inductive F where
  | nan
  | val (q : ℚ)
deriving DecidableEq, Repr

/-- `f64` subtraction with NaN propagation. -/
def F.sub : F → F → F
  | val a, val b => val (a - b)
  | _, _ => nan

/-- `f64` division with NaN propagation; a zero divisor yields NaN (the
`0/0` case — see the module comment on infinities). -/
def F.div : F → F → F
  | val a, val b => if b = 0 then nan else val (a / b)
  | _, _ => nan

/-- `clip_min` on one element (NaN passes through). -/
def F.clipMin (m : ℚ) : F → F
  | val a => val (max a m)
  | nan => nan

/-- `clip_max` on one element (NaN passes through). -/
def F.clipMax (m : ℚ) : F → F
  | val a => val (min a m)
  | nan => nan

/-- Display of an `f64` as Rust's `to_string` prints it, modelled exactly
for the two shapes the claims evaluate: NaN prints `NaN`, and an integral
value prints its integer digits (Rust prints `1.0_f64` as `"1"`).  A
non-integral rational falls back to `num/den` — a placeholder never
reached by the theorems below. -/
def fToString : F → String
  | .nan => "NaN"
  | .val q => if q.den = 1 then toString q.num else toString q.num ++ "/" ++ toString q.den

/-! ### Styler (`src/styler.rs`) -/

/-- The polars `AnyValue` variants this table model carries. -/
inductive AnyVal where
  | f64 (x : F)
  | i32 (n : ℤ)
  | utf8 (s : String)
deriving DecidableEq, Repr

/-- `Series::cast(&DataType::Float64)` on one value.  Casting a `Utf8`
column is modelled as a failure (the claims only exercise numeric
columns). -/
def AnyVal.castF64 : AnyVal → Option F
  | .f64 x => some x
  | .i32 n => some (F.val (n : ℚ))
  | .utf8 _ => none

/-- Cast a whole column to `Float64` (fails as a whole when any value
fails to cast). -/
def castSeries : List AnyVal → Option (List F)
  | [] => some []
  | v :: t =>
    match v.castF64, castSeries t with
    | some f, some fs => some (f :: fs)
    | _, _ => none

/-- Series minimum (`s.min()`): smallest non-NaN value, `none` when there
is none.  The Rust call requests the result as `f32`; that cast is exact
on the values the theorems below use (small integers) and is modelled as
the identity. -/
def seriesMin (l : List F) : Option ℚ :=
  (l.filterMap (fun x => match x with | F.val q => some q | F.nan => none)).min?

/-- Series maximum (`s.max()`), same conventions as `seriesMin`. -/
def seriesMax (l : List F) : Option ℚ :=
  (l.filterMap (fun x => match x with | F.val q => some q | F.nan => none)).max?

/-- The two optional clamps at the head of `normalize_series`. -/
def clipSeries (s : List F) (vmin vmax : Option ℚ) : List F :=
  let s := match vmin with | some m => s.map (F.clipMin m) | none => s
  match vmax with | some m => s.map (F.clipMax m) | none => s

/-- `normalize_series` (`src/styler.rs` lines 248-264): cast to `Float64`
(panicking unwrap modelled as an error), clamp, subtract the minimum,
divide by the maximum of the shifted series.  The `unwrap`s on `min`/`max`
panic on an empty (or all-NaN) series.  A collapsed range divides `0` by
`0`, producing NaN values — there is no error path for it. -/
def normalize_series (s : List AnyVal) (vmin vmax : Option ℚ) : Except String (List F) :=
  match castSeries s with
  | none => .error "cast to Float64 failed"
  | some fs =>
    let fs := clipSeries fs vmin vmax
    match seriesMin fs with
    | none => .error "called unwrap on a None value"
    | some mn =>
      let fs := fs.map (fun x => x.sub (F.val mn))
      match seriesMax fs with
      | none => .error "called unwrap on a None value"
      | some mx => .ok (fs.map (fun x => x.div (F.val mx)))

/-- `StylerParams` (`src/styler.rs` lines 28-32). -/
structure StylerParams where
  precision : Option ℕ
  table_classes : Option (List String)
deriving DecidableEq, Repr

/-- A polars `DataFrame`: ordered named columns.  polars guarantees unique
names and equal column lengths; where a theorem needs those facts they
appear as hypotheses. -/
structure DataFrame where
  cols : List (String × List AnyVal)
deriving DecidableEq, Repr

/-- `DataFrame::width`: number of columns. -/
def DataFrame.width (df : DataFrame) : ℕ := df.cols.length

/-- `DataFrame::height`: number of rows (0 for a column-less frame). -/
def DataFrame.height (df : DataFrame) : ℕ :=
  match df.cols with
  | [] => 0
  | c :: _ => c.2.length

/-- Rectangularity: every column has `height` rows (always true of a real
polars frame). -/
def DataFrame.Rect (df : DataFrame) : Prop :=
  ∀ c ∈ df.cols, c.2.length = df.height

/-- A `HashMap<String, String>` of CSS attributes, modelled as an
association list (lookup/overwrite semantics; iteration order of the Rust
map is arbitrary and no claim depends on it). -/
def alookup (m : List (String × String)) (k : String) : Option String :=
  (m.find? (fun p => p.1 == k)).map (fun p => p.2)

/-- `HashMap::insert`: overwrite an existing key or append. -/
def ainsert (m : List (String × String)) (k v : String) : List (String × String) :=
  if m.any (fun p => p.1 == k) then
    m.map (fun p => if p.1 == k then (k, v) else p)
  else m ++ [(k, v)]

/-- `HashMap::extend`: insert every pair of `b` into `a`. -/
def aextend (a b : List (String × String)) : List (String × String) :=
  b.foldl (fun acc p => ainsert acc p.1 p.2) a

/-- The in-place `iter_mut().zip(new).for_each(extend)` of
`Styler::apply`: rows beyond the shorter list are left unchanged. -/
def zipExtend (old new : List (List (String × String))) : List (List (String × String)) :=
  old.zipWith aextend new ++ old.drop new.length

/-- `Styler` (`src/styler.rs` lines 20-26): table snapshot, single-use
params, per-(column, row) style maps, label overrides. -/
structure Styler where
  df : DataFrame
  params : StylerParams
  applied_styles : List (List (List (String × String)))
  labels : List (String × String)
deriving DecidableEq, Repr

/-- `Styler::new` (`src/styler.rs` lines 35-42): style maps sized
`width × height`, everything else empty. -/
def Styler.new (df : DataFrame) : Styler :=
  ⟨df, ⟨none, none⟩, List.replicate df.width (List.replicate df.height []), []⟩

/-- The sizing invariant `Styler::new` establishes for `applied_styles`. -/
def Styler.SizedStyles (st : Styler) : Prop :=
  st.applied_styles.length = st.df.width ∧
    ∀ col ∈ st.applied_styles, col.length = st.df.height

/-- `Styler::get_col_idx`: position of a column name. -/
def Styler.get_col_idx (st : Styler) (column : String) : Option ℕ :=
  st.df.cols.findIdx? (fun c => c.1 == column)

/-- `Styler::apply` (`src/styler.rs` lines 44-58): look the column up
(panicking on an unknown name), run the style closure on the column's
values, and extend that column's per-row maps.  The closure itself may
panic (e.g. the unwraps inside `background_gradient`'s normalization), so
it returns `Except`. -/
def Styler.apply (st : Styler) (column : String)
    (f : List AnyVal → Except String (List (List (String × String)))) :
    Except String Styler :=
  match st.get_col_idx column with
  | none => .error ("Unknown column " ++ column)
  | some col =>
    match (st.df.cols.get? col).map (fun c => c.2) with
    | none => .error ("Unknown column " ++ column)
    | some series =>
      match f series with
      | .error e => .error e
      | .ok new_styles =>
        .ok { st with applied_styles :=
          st.applied_styles.set col (zipExtend (st.applied_styles.getD col []) new_styles) }

/-- `Styler::set_table_classes` (`src/styler.rs` lines 60-66): single-use;
a second call panics. -/
def Styler.set_table_classes (st : Styler) (classes : List String) : Except String Styler :=
  if st.params.table_classes.isSome then .error "table_classes can only be set once"
  else .ok { st with params := { st.params with table_classes := some classes } }

/-- `Styler::add_table_classes` (`src/styler.rs` lines 68-75): append to
existing classes, or behave as `set` when none exist yet. -/
def Styler.add_table_classes (st : Styler) (classes : List String) : Except String Styler :=
  match st.params.table_classes with
  | none => st.set_table_classes classes
  | some tc => .ok { st with params := { st.params with table_classes := some (tc ++ classes) } }

/-- `Styler::set_precision` (`src/styler.rs` lines 100-106): single-use;
a second call panics. -/
def Styler.set_precision (st : Styler) (precision : ℕ) : Except String Styler :=
  if st.params.precision.isSome then .error "precision can only be set once"
  else .ok { st with params := { st.params with precision := some precision } }

/-- `Color::to_csv` (`src/colors.rs` lines 44-46). -/
def Color.to_csv (c : Color) : String :=
  toString c.r ++ ", " ++ toString c.g ++ ", " ++ toString c.b

/-- `Color::to_rgba` (`src/colors.rs` lines 56-59): the alpha is a raw
`f64` formatted into the string (NaN prints as `NaN`). -/
def Color.to_rgba (c : Color) (a : F) : String :=
  "rgba(" ++ c.to_csv ++ ", " ++ fToString a ++ ")"

/-- `Styler::background_gradient` (`src/styler.rs` lines 108-126):
normalize the column and write `background-color: to_rgba(v)` per row.
The `let AnyValue::Float64(v) = v else panic` in the source cannot fire:
`normalize_series` only produces `Float64` values (here: `F`). -/
def Styler.background_gradient (st : Styler) (column : String) (color : Color)
    (vmin vmax : Option ℚ) : Except String Styler :=
  st.apply column (fun s =>
    match normalize_series s vmin vmax with
    | .error e => .error e
    | .ok ns => .ok (ns.map (fun v => [("background-color", color.to_rgba v)])))

/-- `format_value` (`src/styler.rs` lines 223-240).  Fixed-precision float
formatting (`{:.p}`) is modelled only for the NaN case the claims reach;
see `fToString` for default float display. -/
def format_value (v : AnyVal) (params : StylerParams) : String :=
  match v with
  | .f64 f =>
    match params.precision with
    | none => fToString f
    | some _ => fToString f
  | .utf8 s => s
  | .i32 n => toString n

/-! ### Renderer

`src/renderer.rs` in this snapshot declares a private `Renderer` struct
(fields `column_names`, no `classes`) that `Styler::render` could not even
construct: `src/styler.rs` lines 176-184 builds a `Renderer` with fields
`column_labels`, `cell_values`, `cell_styles`, `hash`, `classes`.  The
version of the renderer those callers compile against is missing from the
snapshot, so the struct below follows the construction site, the
`table`/`row`/`cell`/`styles` logic follows `src/renderer.rs` (which
matches the spec), and the one point the stale file cannot answer — how
the caller-supplied classes reach the `<table>` — is modelled from the
spec: "a fixed class (`dataframe`, plus any caller-supplied extra
classes)". -/

/-- The synthetic per-cell id `T_<hash>_row<r>_col<c>`
(`src/renderer.rs` lines 63-65). -/
def cell_id (hash : String) (row col : ℕ) : String :=
  "T_" ++ hash ++ "_row" ++ toString row ++ "_col" ++ toString col

/-- `css_styles` (`src/renderer.rs` lines 67-73): `attr: value` pairs
joined by `; `. -/
def css_styles (m : List (String × String)) : String :=
  String.intercalate "; " (m.map (fun p => p.1 ++ ": " ++ p.2))

/-- A rendered `<td>` (build_html `TableCell`): attributes plus raw inner
text. -/
structure TableCell where
  attrs : List (String × String)
  inner : String
deriving DecidableEq, Repr

/-- A rendered `<tr>` (build_html `TableRow`). -/
structure TableRow where
  cells : List TableCell
deriving DecidableEq, Repr

/-- A rendered `<table>` (build_html `Table`): attributes, one header row,
body rows in insertion order. -/
structure HTable where
  attrs : List (String × String)
  header : List String
  body : List TableRow
deriving DecidableEq, Repr

/-- `Renderer` as constructed by `Styler::render`
(`src/styler.rs` lines 176-182). -/
structure Renderer where
  column_labels : List String
  cell_values : List (List String)
  cell_styles : List ((ℕ × ℕ) × List (String × String))
  hash : String
  classes : List String
deriving DecidableEq, Repr

/-- `Renderer::cell` (`src/renderer.rs` lines 54-60): `<td>` with the
synthetic id and the raw cell string.  `cell_values` access is modelled
with defaults; the Rust indexing cannot go out of bounds on the
rectangular frames the styler produces. -/
def Renderer.cell (re : Renderer) (row col : ℕ) : TableCell :=
  ⟨[("id", cell_id re.hash row col)], (re.cell_values.getD col []).getD row ""⟩

/-- `Renderer::row` (`src/renderer.rs` lines 47-52): one cell per column,
in column order. -/
def Renderer.row (re : Renderer) (row : ℕ) : TableRow :=
  ⟨(List.range re.cell_values.length).map (fun col => re.cell row col)⟩

/-- `Renderer::table` (`src/renderer.rs` lines 33-45): panic on zero
columns, else one body row per record (row count taken from the first
column) plus the header row; class attribute `dataframe` joined with the
caller-supplied extra classes (`Modelled from the spec:` the class-list
handling, see the section comment above). -/
def Renderer.table (re : Renderer) : Except String HTable :=
  match re.cell_values with
  | [] => .error "No data to render; there are no columns in the DataFrame."
  | c0 :: _ =>
    .ok { attrs := [("class", String.intercalate " " ("dataframe" :: re.classes))],
          header := re.column_labels,
          body := (List.range c0.length).map re.row }

/-- `Renderer::styles` (`src/renderer.rs` lines 17-31) as structured
(selector, body) CSS rules. -/
def Renderer.styleRules (re : Renderer) : List (String × String) :=
  re.cell_styles.map (fun e => ("#" ++ cell_id re.hash e.1.1 e.1.2, css_styles e.2))

/-- The output of `Renderer::render` (`src/renderer.rs` lines 13-15):
the `<style>` rules followed by the table markup. -/
structure RenderOutput where
  rules : List (String × String)
  table : HTable
deriving DecidableEq, Repr

/-- `Renderer::render`: all-or-nothing — the zero-column panic aborts the
whole render with no partial output. -/
def Renderer.render (re : Renderer) : Except String RenderOutput :=
  match re.table with
  | .error e => .error e
  | .ok t => .ok ⟨re.styleRules, t⟩

/-- The sparse `(row, col) -> styles` map `Styler::render` collects
(`src/styler.rs` lines 157-165): only non-empty per-cell maps. -/
def Styler.collect_cell_styles (st : Styler) : List ((ℕ × ℕ) × List (String × String)) :=
  (st.applied_styles.enum.map (fun ce =>
    ce.2.enum.filterMap (fun re =>
      if re.2 = [] then none else some ((re.1, ce.1), re.2)))).flatten

/-- Column display labels (`src/styler.rs` lines 167-174): explicit label
if set, else the raw column name. -/
def Styler.resolved_labels (st : Styler) : List String :=
  st.df.cols.map (fun c => (alookup st.labels c.1).getD c.1)

/-- `Styler::render` (`src/styler.rs` lines 150-185).  The random
per-render identifier is passed in as `hash` (the source draws it from a
global RNG; the spec itself asks for it as an injectable identifier
capability). -/
def Styler.render (st : Styler) (hash : String) : Except String RenderOutput :=
  Renderer.render
    { column_labels := st.resolved_labels,
      cell_values := st.df.cols.map (fun c => c.2.map (fun v => format_value v st.params)),
      cell_styles := st.collect_cell_styles,
      hash := hash,
      classes := st.params.table_classes.getD [] }

/-! ### Spec-side shape predicates

These definitions follow the SPEC's words (not the code); the theorems
below compare the code's behaviour against them. -/

/-- The spec's words for the `from_rgb` literal: the exact character
string `rgb(<d1>, <d2>, <d3>)`. -/
def rgbLit (d1 d2 d3 : List Char) : List Char :=
  'r' :: 'g' :: 'b' :: '(' ::
    (d1 ++ ',' :: ' ' :: (d2 ++ ',' :: ' ' :: (d3 ++ [')'])))

/-- A non-empty all-ASCII-digit group. -/
def IsDigitStr (l : List Char) : Prop := l ≠ [] ∧ ∀ c ∈ l, c.isDigit

/-- A hexadecimal digit byte, per the spec's "each pair valid
hexadecimal". -/
def isHexDigitByte (b : ℕ) : Bool := (hexDigitVal b).isSome

/-- The spec's claimed shape for `from_hex` inputs: exactly 7 characters
`#rrggbb` with each pair valid hexadecimal (byte 35 is `#`). -/
def hexClaimShape (s : List ℕ) : Bool :=
  match s with
  | [b0, b1, b2, b3, b4, b5, b6] =>
    b0 == 35 && (isHexDigitByte b1 && isHexDigitByte b2 && isHexDigitByte b3 &&
      isHexDigitByte b4 && isHexDigitByte b5 && isHexDigitByte b6)
  | _ => false

/-- What `u8::from_str_radix(_, 16)` actually accepts on a two-byte pair,
stated independently of the parser: two hex digits, or `+` followed by a
hex digit, or `-0` (the checked subtraction from zero succeeds only for
value zero). -/
def HexPairSpec (a b v : ℕ) : Prop :=
  (∃ x y, hexDigitVal a = some x ∧ hexDigitVal b = some y ∧ v = 16 * x + y) ∨
  (a = 43 ∧ hexDigitVal b = some v) ∨
  (a = 45 ∧ b = 48 ∧ v = 0)

/-- `true` when the byte at index `i` (if any) is not a UTF-8 continuation
byte, i.e. slicing at `i` cannot panic. -/
def noContAt (s : List ℕ) (i : ℕ) : Bool :=
  match s.get? i with
  | some b => !isContByte b
  | none => true

/-! ### Concrete inputs used by counterexamples and witnesses -/

/-- `"xrgb(1, 2, 3)"`: not of the claimed `rgb(...)` shape (leading `x`),
yet the end-anchored regex matches its suffix. -/
def ceRgb : List Char := "xrgb(1, 2, 3)".toList

/-- Bytes of `"0aabbcc"`: length 7, valid pairs, but no leading `#`. -/
def ceHexNoHash : List ℕ := [48, 97, 97, 98, 98, 99, 99]

/-- Bytes of `"#+1+2+3"`: pairs `+1`, `+2`, `+3` are not hex-digit pairs,
yet `from_str_radix` accepts a leading `+`. -/
def ceHexPlus : List ℕ := [35, 43, 49, 43, 50, 43, 51]

/-- Bytes of `"##éaaa"` (7 bytes, `é` = `0xC3 0xA9` straddling index 3):
valid UTF-8 on which `&hex[1..3]` panics. -/
def ceHexPanic : List ℕ := [35, 35, 195, 169, 97, 97, 97]

/-- An all-ASCII 7-byte input (`"#zzzzzz"`), for the no-crash witness. -/
def ceHexAscii : List ℕ := [35, 122, 122, 122, 122, 122, 122]

/-- A three-colour grey palette: breakpoints at 0, 1/2, 1. -/
def palette3 : List Color :=
  [Color.new 0 0 0, Color.new 100 100 100, Color.new 200 200 200]

/-- `from_palette` on `palette3`. -/
def map3 : ColorMap := ColorMap.from_palette palette3

/-- A four-colour palette: breakpoints at 0, 1/3, 2/3, 1. -/
def palette4 : List Color :=
  [Color.new 0 0 0, Color.new 60 60 60, Color.new 120 120 120, Color.new 255 0 0]

/-- `from_palette` on `palette4`. -/
def map4 : ColorMap := ColorMap.from_palette palette4

/-- A small two-column frame for render/styler witnesses. -/
def dfW : DataFrame := ⟨[("a", [.i32 1, .i32 2]), ("b", [.utf8 "x", .utf8 "y"])]⟩

/-- `dfW` with table classes already set (as `set_table_classes` leaves
it; the witness proves that equation). -/
def stW : Styler :=
  { Styler.new dfW with params := { precision := none, table_classes := some ["extra"] } }

/-- `dfW`'s styler with precision already set. -/
def stPrec : Styler :=
  { Styler.new dfW with params := { precision := some 2, table_classes := none } }

/-- A one-column frame whose values are all equal (the degenerate
normalization input). -/
def dfConst : DataFrame := ⟨[("a", [.i32 1, .i32 1])]⟩

/-- A frame with zero columns. -/
def dfEmpty : DataFrame := ⟨[]⟩

/-! ## Theorems -/

/-! ### Channel interpolation helpers -/

theorem round_mono_q {x y : ℚ} (h : x ≤ y) : round x ≤ round y := by
  rw [round_eq, round_eq]
  exact Int.floor_le_floor (by linarith)

theorem interpolate_in_range {x y : ℕ} {a : ℚ} (hx : x ≤ 255) (hy : y ≤ 255)
    (h0 : 0 ≤ a) (h1 : a ≤ 1) :
    PolarsStyler.interpolate x y a =
      (round ((x : ℚ) * (1 - a) + (y : ℚ) * a)).toNat := by
  unfold PolarsStyler.interpolate u8sat
  have hxq : (x : ℚ) ≤ 255 := by exact_mod_cast hx
  have hyq : (y : ℚ) ≤ 255 := by exact_mod_cast hy
  have hub : (x : ℚ) * (1 - a) + (y : ℚ) * a ≤ 255 := by
    have h1' : (x : ℚ) * (1 - a) ≤ 255 * (1 - a) :=
      mul_le_mul_of_nonneg_right hxq (by linarith)
    have h2' : (y : ℚ) * a ≤ 255 * a := mul_le_mul_of_nonneg_right hyq h0
    linarith
  have hround : round ((x : ℚ) * (1 - a) + (y : ℚ) * a) ≤ 255 := by
    have := round_mono_q hub
    simpa using this
  have : (round ((x : ℚ) * (1 - a) + (y : ℚ) * a)).toNat ≤ 255 := by omega
  omega

theorem interpolate_zero {x y : ℕ} (hx : x ≤ 255) :
    PolarsStyler.interpolate x y 0 = x := by
  unfold PolarsStyler.interpolate u8sat
  norm_num [round_natCast]
  omega

theorem interpolate_one {x y : ℕ} (hy : y ≤ 255) :
    PolarsStyler.interpolate x y 1 = y := by
  unfold PolarsStyler.interpolate u8sat
  norm_num [round_natCast]
  omega

/-- C6: `Gradient(start, end).interpolate(a)` fails with a RangeError
exactly when `a` is outside `[0, 1]`; within range it succeeds with each
channel equal to `round(start·(1-a) + end·a)`, and in particular
`interpolate(0.0) == start` and `interpolate(1.0) == end`. -/
theorem c6_gradient_interpolate (g : Gradient) (a : ℚ)
    (hs : g.start.Wf) (he : g.stop.Wf) :
    ((g.interpolate a = .error ()) ↔ (a < 0 ∨ 1 < a)) ∧
    (0 ≤ a → a ≤ 1 →
      g.interpolate a = .ok (Color.new
        (round ((g.start.r : ℚ) * (1 - a) + (g.stop.r : ℚ) * a)).toNat
        (round ((g.start.g : ℚ) * (1 - a) + (g.stop.g : ℚ) * a)).toNat
        (round ((g.start.b : ℚ) * (1 - a) + (g.stop.b : ℚ) * a)).toNat)) ∧
    g.interpolate 0 = .ok g.start ∧
    g.interpolate 1 = .ok g.stop := by
  obtain ⟨hr, hg, hb⟩ := hs
  obtain ⟨hr', hg', hb'⟩ := he
  refine ⟨?_, ?_, ?_, ?_⟩
  · unfold Gradient.interpolate
    by_cases h : 0 ≤ a ∧ a ≤ 1
    · rw [if_neg (not_not.mpr h)]
      constructor
      · intro hh
        exact absurd hh (by simp)
      · intro hh
        rcases hh with hh | hh
        · linarith [h.1]
        · linarith [h.2]
    · rw [if_pos h]
      constructor
      · intro _
        rcases not_and_or.mp h with hh | hh
        · exact Or.inl (lt_of_not_le hh)
        · exact Or.inr (lt_of_not_le hh)
      · intro _
        rfl
  · intro h0 h1
    unfold Gradient.interpolate
    rw [if_neg (not_not.mpr ⟨h0, h1⟩), interpolate_in_range hr hr' h0 h1,
      interpolate_in_range hg hg' h0 h1, interpolate_in_range hb hb' h0 h1]
  · unfold Gradient.interpolate
    rw [if_neg (not_not.mpr ⟨by norm_num, by norm_num⟩), interpolate_zero hr,
      interpolate_zero hg, interpolate_zero hb]
    rfl
  · unfold Gradient.interpolate
    rw [if_neg (not_not.mpr ⟨by norm_num, by norm_num⟩), interpolate_one hr',
      interpolate_one hg', interpolate_one hb']
    rfl

/-- Witness for C6 at a concrete gradient and position. -/
theorem c6_gradient_interpolate_witness :
    (Gradient.new (Color.new 10 20 30) (Color.new 200 100 0)).interpolate 0 =
      .ok (Color.new 10 20 30) :=
  (c6_gradient_interpolate (Gradient.new (Color.new 10 20 30) (Color.new 200 100 0))
    (1/2) ⟨by decide, by decide, by decide⟩ ⟨by decide, by decide, by decide⟩).2.2.1

/-! ### C1: `ColorMap::get` and the `tuples()` chunking bug -/

/-- C1 (code divergence): with the three-stop map (breakpoints 0, 1/2, 1)
the claim requires `get(0.75)` to interpolate between the 1/2 and 1
breakpoints (grey 150) and `get(0.5)` to return the middle stop's colour
(grey 100); the code's `tuples()` iterator only visits the chunk
`(0, 1/2)`, so both queries fall through to the last colour (grey 200).
With the four-stop map (0, 1/3, 2/3, 1) the chunks are `(0, 1/3)` and
`(2/3, 1)`, so `get(0.5)` interpolates the second chunk at a negative
position and returns a RangeError although 0.5 is in range. -/
theorem c1_colormap_get_chunking :
    map3.get (3/4 : ℚ) = .ok (Color.new 200 200 200) ∧
    map3.get (1/2 : ℚ) = .ok (Color.new 200 200 200) ∧
    map4.get (1/2 : ℚ) = .error () := by
  have h3 : map3.v = [⟨0, Color.new 0 0 0⟩, ⟨1/2, Color.new 100 100 100⟩,
      ⟨1, Color.new 200 200 200⟩] := by
    show (ColorMap.from_palette palette3).v = _
    simp [ColorMap.from_palette, palette3, List.enum, List.enumFrom]
  have h4 : map4.v = [⟨0, Color.new 0 0 0⟩, ⟨1/3, Color.new 60 60 60⟩,
      ⟨2/3, Color.new 120 120 120⟩, ⟨1, Color.new 255 0 0⟩] := by
    show (ColorMap.from_palette palette4).v = _
    simp [ColorMap.from_palette, palette4, List.enum, List.enumFrom]
  refine ⟨?_, ?_, ?_⟩
  · unfold ColorMap.get
    rw [h3]
    norm_num [tuples2, getLoop]
  · unfold ColorMap.get
    rw [h3]
    norm_num [tuples2, getLoop]
  · unfold ColorMap.get
    rw [h4]
    norm_num [tuples2, getLoop, Gradient.interpolate]

/-! ### C7: single-use parameters -/

/-- C7: on a state whose precision (resp. table classes) is already set,
`set_precision` (resp. `set_table_classes`) fails with the
misconfiguration panic instead of overwriting; and since a failed call
yields no new state, the same holds for every repeated attempt — in
particular immediately after a successful first call. -/
theorem c7_single_use_params (st st' : Styler) (n m : ℕ) (cls cls' : List String) :
    (st.params.precision.isSome →
      st.set_precision n = .error "precision can only be set once") ∧
    (st.params.table_classes.isSome →
      st.set_table_classes cls = .error "table_classes can only be set once") ∧
    (st.set_precision n = .ok st' →
      st'.set_precision m = .error "precision can only be set once") ∧
    (st.set_table_classes cls = .ok st' →
      st'.set_table_classes cls' = .error "table_classes can only be set once") := by
  refine ⟨?_, ?_, ?_, ?_⟩
  · intro h
    unfold Styler.set_precision
    rw [if_pos h]
  · intro h
    unfold Styler.set_table_classes
    rw [if_pos h]
  · intro h
    unfold Styler.set_precision at h ⊢
    by_cases hp : st.params.precision.isSome
    · rw [if_pos hp] at h
      exact absurd h (by simp)
    · rw [if_neg hp] at h
      have hst : st' = { st with params := { st.params with precision := some n } } := by
        injection h with h'
        exact h'.symm
      rw [hst]
      rfl
  · intro h
    unfold Styler.set_table_classes at h ⊢
    by_cases hp : st.params.table_classes.isSome
    · rw [if_pos hp] at h
      exact absurd h (by simp)
    · rw [if_neg hp] at h
      have hst : st' = { st with params := { st.params with table_classes := some cls } } := by
        injection h with h'
        exact h'.symm
      rw [hst]
      rfl

/-- Witness for C7: a styler with precision already set refuses a second
`set_precision`. -/
theorem c7_single_use_params_witness :
    stPrec.set_precision 3 = .error "precision can only be set once" :=
  (c7_single_use_params stPrec stPrec 3 4 [] []).1 (by decide)

/-! ### C8: rendering a zero-column table -/

/-- C8: rendering a table with zero columns fails with the fatal
structural panic; the whole render is all-or-nothing (an `error` result
carries no partial output). -/
theorem c8_render_zero_columns (st : Styler) (hash : String)
    (h : st.df.cols = []) :
    st.render hash = .error "No data to render; there are no columns in the DataFrame." := by
  unfold Styler.render Renderer.render Renderer.table
  simp [h]

/-- Witness for C8 on the concrete empty frame. -/
theorem c8_render_zero_columns_witness :
    (Styler.new dfEmpty).render "h" =
      .error "No data to render; there are no columns in the DataFrame." :=
  c8_render_zero_columns (Styler.new dfEmpty) "h" rfl

/-! ### C9: hex round trip -/

theorem hexDigitVal_hexDigitChar {d : ℕ} (hd : d < 16) :
    hexDigitVal (hexDigitChar d) = some d := by
  interval_cases d <;> rfl

theorem hexDigitChar_ge {d : ℕ} (hd : d < 16) : 48 ≤ hexDigitChar d := by
  interval_cases d <;> decide

theorem hexDigitChar_le {d : ℕ} (hd : d < 16) : hexDigitChar d ≤ 102 := by
  interval_cases d <;> decide

theorem hexFoldPos_pair {a b x y : ℕ} (ha : hexDigitVal a = some x)
    (hb : hexDigitVal b = some y) (hx : x ≤ 15) (hy : y ≤ 15) :
    hexFoldPos [a, b] 0 = some (16 * x + y) := by
  simp only [hexFoldPos, ha, hb]
  rw [if_pos (by omega), if_pos (by omega)]
  congr 1
  omega

theorem hexDigitVal_le15 {b v : ℕ} (h : hexDigitVal b = some v) : v ≤ 15 := by
  unfold hexDigitVal at h
  split_ifs at h <;> (injection h with h'; omega)

theorem u8_parse_byteHex {n : ℕ} (h : n ≤ 255) :
    u8_from_str_radix16 (byteHex n) = some n := by
  have hdiv : n / 16 < 16 := by omega
  have hmod : n % 16 < 16 := by omega
  have h48 := hexDigitChar_ge hdiv
  show u8_from_str_radix16 [hexDigitChar (n / 16), hexDigitChar (n % 16)] = some n
  simp only [u8_from_str_radix16]
  rw [if_neg (by omega), if_neg (by omega),
    hexFoldPos_pair (hexDigitVal_hexDigitChar hdiv) (hexDigitVal_hexDigitChar hmod)
      (by omega) (by omega)]
  congr 1
  omega

/-- C9: `from_hex(to_hex(Color(r, g, b)))` succeeds and returns
`Color(r, g, b)` for all byte channels. -/
theorem c9_hex_round_trip (r g b : ℕ) (hr : r ≤ 255) (hg : g ≤ 255) (hb : b ≤ 255) :
    Color.from_hex (Color.new r g b).to_hex = .ok (Color.new r g b) := by
  have h1 := hexDigitChar_ge (show r / 16 < 16 by omega)
  have h2 := hexDigitChar_le (show r / 16 < 16 by omega)
  have h3 := hexDigitChar_ge (show g / 16 < 16 by omega)
  have h4 := hexDigitChar_le (show g / 16 < 16 by omega)
  have h5 := hexDigitChar_ge (show b / 16 < 16 by omega)
  have h6 := hexDigitChar_le (show b / 16 < 16 by omega)
  have hx : (Color.new r g b).to_hex =
      [35, hexDigitChar (r / 16), hexDigitChar (r % 16), hexDigitChar (g / 16),
        hexDigitChar (g % 16), hexDigitChar (b / 16), hexDigitChar (b % 16)] := rfl
  rw [hx]
  unfold Color.from_hex
  rw [if_neg (by simp)]
  have hb1 : strSlice [35, hexDigitChar (r / 16), hexDigitChar (r % 16),
      hexDigitChar (g / 16), hexDigitChar (g % 16), hexDigitChar (b / 16),
      hexDigitChar (b % 16)] 1 3 = some (byteHex r) := by
    unfold strSlice isCharBoundary isContByte
    rw [if_pos]
    · rfl
    · refine ⟨by omega, ?_, ?_⟩ <;> simp <;> omega
  have hb2 : strSlice [35, hexDigitChar (r / 16), hexDigitChar (r % 16),
      hexDigitChar (g / 16), hexDigitChar (g % 16), hexDigitChar (b / 16),
      hexDigitChar (b % 16)] 3 5 = some (byteHex g) := by
    unfold strSlice isCharBoundary isContByte
    rw [if_pos]
    · rfl
    · refine ⟨by omega, ?_, ?_⟩ <;> simp <;> omega
  have hb3 : strSlice [35, hexDigitChar (r / 16), hexDigitChar (r % 16),
      hexDigitChar (g / 16), hexDigitChar (g % 16), hexDigitChar (b / 16),
      hexDigitChar (b % 16)] 5 7 = some (byteHex b) := by
    unfold strSlice isCharBoundary isContByte
    rw [if_pos]
    · rfl
    · refine ⟨by omega, ?_, ?_⟩ <;> simp <;> omega
  simp only [hb1, hb2, hb3, u8_parse_byteHex hr, u8_parse_byteHex hg, u8_parse_byteHex hb]

/-- Witness for C9 at a concrete colour (the repo's own test colour). -/
theorem c9_hex_round_trip_witness :
    Color.from_hex (Color.new 110 50 0).to_hex = .ok (Color.new 110 50 0) :=
  c9_hex_round_trip 110 50 0 (by decide) (by decide) (by decide)

/-! ### C4 and C10: what `from_hex` actually accepts, and when it panics -/

theorem hexDigitVal_byte_range {b v : ℕ} (h : hexDigitVal b = some v) :
    48 ≤ b ∧ b ≤ 102 := by
  unfold hexDigitVal at h
  split_ifs at h <;> first | omega | exact absurd h (by simp)

theorem hexFoldPos_single {b : ℕ} : hexFoldPos [b] 0 = hexDigitVal b := by
  cases hb : hexDigitVal b with
  | none => simp [hexFoldPos, hb]
  | some v =>
    have := hexDigitVal_le15 hb
    simp only [hexFoldPos, hb]
    rw [if_pos (by omega)]
    congr 1
    omega

theorem hexDigitVal_eq_zero {b : ℕ} : hexDigitVal b = some 0 ↔ b = 48 := by
  unfold hexDigitVal
  split_ifs with h1 h2 h3 <;> simp <;> omega

theorem hexFoldNeg_single {b : ℕ} :
    hexFoldNeg [b] = if b = 48 then some 0 else none := by
  cases hb : hexDigitVal b with
  | none =>
    simp only [hexFoldNeg, hb]
    rw [if_neg]
    intro h48
    subst h48
    exact absurd hb (by decide)
  | some v =>
    simp only [hexFoldNeg, hb]
    by_cases hv : v = 0
    · subst hv
      rw [if_pos rfl, if_pos (hexDigitVal_eq_zero.mp hb)]
    · rw [if_neg hv, if_neg]
      intro h48
      subst h48
      have : v = 0 := by
        have := hb
        rw [show hexDigitVal 48 = some 0 from rfl] at this
        injection this with h'
        omega
      omega

/-- Characterization of `u8::from_str_radix(_, 16)` on a two-byte pair:
exactly the `HexPairSpec` shapes are accepted. -/
theorem u8_pair_iff (a b v : ℕ) :
    u8_from_str_radix16 [a, b] = some v ↔ HexPairSpec a b v := by
  simp only [u8_from_str_radix16]
  by_cases ha43 : a = 43
  · subst ha43
    rw [if_pos rfl, if_neg (by simp), hexFoldPos_single]
    unfold HexPairSpec
    constructor
    · intro h
      exact Or.inr (Or.inl ⟨rfl, h⟩)
    · rintro (⟨x, y, hx, hy, hv⟩ | ⟨_, hb⟩ | ⟨h45, _, _⟩)
      · rw [show hexDigitVal 43 = none from rfl] at hx
        exact Option.noConfusion hx
      · exact hb
      · omega
  · by_cases ha45 : a = 45
    · subst ha45
      rw [if_neg (by omega), if_pos rfl, if_neg (by simp), hexFoldNeg_single]
      unfold HexPairSpec
      constructor
      · intro h
        split_ifs at h with hb48
        injection h with h'
        exact Or.inr (Or.inr ⟨rfl, hb48, h'.symm⟩)
      · rintro (⟨x, y, hx, hy, hv⟩ | ⟨h43, _⟩ | ⟨_, hb48, hv⟩)
        · rw [show hexDigitVal 45 = none from rfl] at hx
          exact Option.noConfusion hx
        · omega
        · subst hb48
          rw [if_pos rfl, hv]
    · rw [if_neg ha43, if_neg ha45]
      constructor
      · intro h
        cases hx : hexDigitVal a with
        | none => simp [hexFoldPos, hx] at h
        | some x =>
          cases hy : hexDigitVal b with
          | none =>
            simp [hexFoldPos, hx, hy] at h
          | some y =>
            rw [hexFoldPos_pair hx hy (hexDigitVal_le15 hx) (hexDigitVal_le15 hy)] at h
            injection h with h'
            exact Or.inl ⟨x, y, hx, hy, h'.symm⟩
      · rintro (⟨x, y, hx, hy, hv⟩ | ⟨h43, _⟩ | ⟨h45, _, _⟩)
        · rw [hexFoldPos_pair hx hy (hexDigitVal_le15 hx) (hexDigitVal_le15 hy), hv]
        · exact absurd h43 ha43
        · exact absurd h45 ha45

theorem hexPairSpec_not_cont {a b v : ℕ} (h : HexPairSpec a b v) :
    isContByte a = false := by
  rcases h with ⟨x, y, hx, _, _⟩ | ⟨h43, _⟩ | ⟨h45, _, _⟩
  · have := hexDigitVal_byte_range hx
    unfold isContByte
    simp only [decide_eq_false_iff_not]
    omega
  · subst h43
    decide
  · subst h45
    decide

/-- Normal form of `from_hex` on a 7-byte input: the panic checks and the
three pair parses in source order. -/
theorem from_hex_seven (b0 b1 b2 b3 b4 b5 b6 : ℕ) :
    Color.from_hex [b0, b1, b2, b3, b4, b5, b6] =
      (if isContByte b1 || isContByte b3 then .crash
       else match u8_from_str_radix16 [b1, b2] with
        | none => .err
        | some v1 =>
          if isContByte b5 then .crash
          else match u8_from_str_radix16 [b3, b4] with
            | none => .err
            | some v2 =>
              match u8_from_str_radix16 [b5, b6] with
              | none => .err
              | some v3 => .ok (Color.new v1 v2 v3)) := by
  by_cases h1 : isContByte b1 <;> by_cases h3 : isContByte b3 <;>
    by_cases h5 : isContByte b5 <;>
      simp [Color.from_hex, strSlice, isCharBoundary, h1, h3, h5]

/-- C4 (counterexample): the claim's shape (`#` plus six hex digits) is
neither necessary nor checked — `from_hex` accepts `0aabbcc` (no `#`) and
`#+1+2+3` (pairs that are not hex-digit pairs). -/
theorem c4_from_hex_counterexample :
    hexClaimShape ceHexNoHash = false ∧
    Color.from_hex ceHexNoHash = .ok (Color.new 170 187 204) ∧
    hexClaimShape ceHexPlus = false ∧
    Color.from_hex ceHexPlus = .ok (Color.new 1 2 3) := by
  decide

/-- C4 (amended): `from_hex` succeeds iff its input is exactly 7 bytes
whose three byte pairs at positions 1-2, 3-4, 5-6 are each accepted by
`u8::from_str_radix(_, 16)` (two hex digits, `+` plus a hex digit, or
`-0`); the leading byte is arbitrary.  Inputs of other lengths fail with a
FormatError.  (Length-7 inputs with a continuation byte at a checked index
abort instead — that is claim C10's subject.) -/
theorem c4_from_hex_amended (s : List ℕ) (b0 b1 b2 b3 b4 b5 b6 v1 v2 v3 : ℕ) :
    (s.length ≠ 7 → Color.from_hex s = .err) ∧
    (Color.from_hex [b0, b1, b2, b3, b4, b5, b6] = .ok (Color.new v1 v2 v3) ↔
      HexPairSpec b1 b2 v1 ∧ HexPairSpec b3 b4 v2 ∧ HexPairSpec b5 b6 v3) := by
  constructor
  · intro h
    unfold Color.from_hex
    rw [if_pos h]
  · rw [from_hex_seven]
    constructor
    · intro h
      by_cases h13 : isContByte b1 || isContByte b3
      · rw [if_pos h13] at h
        exact absurd h (by simp)
      · rw [if_neg h13] at h
        cases hp1 : u8_from_str_radix16 [b1, b2] with
        | none =>
          rw [hp1] at h
          exact absurd h (by simp)
        | some w1 =>
          rw [hp1] at h
          by_cases h5 : isContByte b5
          · simp only [if_pos h5] at h
            exact absurd h (by simp)
          · simp only [if_neg h5] at h
            cases hp2 : u8_from_str_radix16 [b3, b4] with
            | none =>
              rw [hp2] at h
              exact absurd h (by simp)
            | some w2 =>
              rw [hp2] at h
              cases hp3 : u8_from_str_radix16 [b5, b6] with
              | none =>
                rw [hp3] at h
                exact absurd h (by simp)
              | some w3 =>
                rw [hp3] at h
                simp only [RustResult.ok.injEq] at h
                have hinj : w1 = v1 ∧ w2 = v2 ∧ w3 = v3 := by
                  have := h
                  unfold Color.new at this
                  injection this with e1 e2 e3
                  exact ⟨e1, e2, e3⟩
                obtain ⟨e1, e2, e3⟩ := hinj
                subst e1; subst e2; subst e3
                exact ⟨(u8_pair_iff _ _ _).mp hp1, (u8_pair_iff _ _ _).mp hp2,
                  (u8_pair_iff _ _ _).mp hp3⟩
    · rintro ⟨hp1, hp2, hp3⟩
      have h1 := hexPairSpec_not_cont hp1
      have h3 := hexPairSpec_not_cont hp2
      have h5 := hexPairSpec_not_cont hp3
      rw [if_neg (by simp [h1, h3]), (u8_pair_iff b1 b2 v1).mpr hp1]
      simp only [if_neg (by simp [h5] : ¬isContByte b5 = true)]
      rw [(u8_pair_iff b3 b4 v2).mpr hp2, (u8_pair_iff b5 b6 v3).mpr hp3]

/-- Witness for C4 (amended) at a concrete accepted input. -/
theorem c4_from_hex_amended_witness :
    Color.from_hex [48, 97, 97, 98, 98, 99, 99] = .ok (Color.new 170 187 204) ↔
      HexPairSpec 97 97 170 ∧ HexPairSpec 98 98 187 ∧ HexPairSpec 99 99 204 :=
  (c4_from_hex_amended [] 48 97 97 98 98 99 99 170 187 204).2

/-- C10 (counterexample): `from_hex` is not total — on the valid UTF-8
input `"##éaaa"` (7 bytes) the slice `&hex[1..3]` ends inside the
two-byte `é` and panics. -/
theorem c10_from_hex_counterexample : Color.from_hex ceHexPanic = .crash := by
  decide

theorem isCharBoundary_of_noCont {s : List ℕ} {i : ℕ} (hi : i ≠ 0)
    (hlt : i < s.length) (h : noContAt s i) : isCharBoundary s i = true := by
  unfold isCharBoundary
  rw [if_neg hi]
  unfold noContAt at h
  cases hg : s.get? i with
  | none =>
    rw [List.get?_eq_none] at hg
    omega
  | some b =>
    rw [hg] at h
    exact h

/-- C10 (amended): `from_hex` returns a colour or a FormatError — never
aborts — on every input whose bytes at indices 1, 3 and 5 are not UTF-8
continuation bytes (in particular on every ASCII string); only a 7-byte
input with a multi-byte character straddling one of those indices
panics. -/
theorem c10_from_hex_no_crash (s : List ℕ) (h1 : noContAt s 1)
    (h3 : noContAt s 3) (h5 : noContAt s 5) :
    Color.from_hex s ≠ .crash := by
  by_cases hlen : s.length = 7
  · have hb1 := isCharBoundary_of_noCont (by omega) (by omega) h1
    have hb3 := isCharBoundary_of_noCont (by omega) (by omega) h3
    have hb5 := isCharBoundary_of_noCont (by omega) (by omega) h5
    have hb7 : isCharBoundary s 7 = true := by
      unfold isCharBoundary
      rw [if_neg (by omega), List.get?_eq_none.mpr (by omega)]
      simp [hlen]
    have hs1 : strSlice s 1 3 = some (s.tail.take 2) := by
      unfold strSlice
      rw [if_pos ⟨by omega, hb1, hb3⟩, List.drop_one]
    have hs2 : strSlice s 3 5 = some ((s.drop 3).take 2) := by
      unfold strSlice
      rw [if_pos ⟨by omega, hb3, hb5⟩]
    have hs3 : strSlice s 5 7 = some ((s.drop 5).take 2) := by
      unfold strSlice
      rw [if_pos ⟨by omega, hb5, hb7⟩]
    rcases ho1 : u8_from_str_radix16 (s.tail.take 2) with _ | v1 <;>
      rcases ho2 : u8_from_str_radix16 ((s.drop 3).take 2) with _ | v2 <;>
        rcases ho3 : u8_from_str_radix16 ((s.drop 5).take 2) with _ | v3 <;>
          simp [Color.from_hex, hlen, hs1, hs2, hs3, ho1, ho2, ho3]
  · unfold Color.from_hex
    rw [if_pos hlen]
    simp

/-- Witness for C10 (amended) at a concrete all-ASCII input. -/
theorem c10_from_hex_no_crash_witness : Color.from_hex ceHexAscii ≠ .crash :=
  c10_from_hex_no_crash ceHexAscii (by decide) (by decide) (by decide)

/-! ### C5: `background_gradient` on a constant column -/

theorem castSeries_length : ∀ {l : List AnyVal} {fs : List F},
    castSeries l = some fs → fs.length = l.length := by
  intro l
  induction l with
  | nil =>
    intro fs h
    simp only [castSeries] at h
    injection h with h'
    subst h'
    rfl
  | cons v t ih =>
    intro fs h
    simp only [castSeries] at h
    cases hv : v.castF64 with
    | none => rw [hv] at h; exact absurd h (by simp)
    | some f =>
      cases ht : castSeries t with
      | none => rw [hv, ht] at h; exact absurd h (by simp)
      | some fs' =>
        rw [hv, ht] at h
        injection h with h'
        subst h'
        simp [ih ht]

theorem filterMap_val_replicate (n : ℕ) (q : ℚ) :
    (List.replicate n (F.val q)).filterMap
      (fun x => match x with | F.val q => some q | F.nan => none) =
      List.replicate n q := by
  induction n with
  | zero => rfl
  | succ k ih => simp [List.replicate_succ, ih]

theorem min?_replicate {n : ℕ} (hn : n ≠ 0) (q : ℚ) :
    (List.replicate n q).min? = some q := by
  induction n with
  | zero => omega
  | succ k ih =>
    rw [List.replicate_succ, List.min?_cons]
    cases hk : k with
    | zero => simp
    | succ k' =>
      rw [← hk, ih (by omega)]
      simp

theorem max?_replicate {n : ℕ} (hn : n ≠ 0) (q : ℚ) :
    (List.replicate n q).max? = some q := by
  induction n with
  | zero => omega
  | succ k ih =>
    rw [List.replicate_succ, List.max?_cons]
    cases hk : k with
    | zero => simp
    | succ k' =>
      rw [← hk, ih (by omega)]
      simp

theorem seriesMin_replicate {n : ℕ} (hn : n ≠ 0) (q : ℚ) :
    seriesMin (List.replicate n (F.val q)) = some q := by
  unfold seriesMin
  rw [filterMap_val_replicate, min?_replicate hn]

theorem seriesMax_replicate {n : ℕ} (hn : n ≠ 0) (q : ℚ) :
    seriesMax (List.replicate n (F.val q)) = some q := by
  unfold seriesMax
  rw [filterMap_val_replicate, max?_replicate hn]

/-- On a column that is constant (value `q`) after clamping,
`normalize_series` completes with every element NaN: it subtracts the
minimum `q`, leaving all zeros, and divides by the zero maximum
(`0.0/0.0` = NaN in `f64`). -/
theorem normalize_series_const {vals : List AnyVal} {fs : List F} {vmin vmax : Option ℚ}
    {q : ℚ} (hcast : castSeries vals = some fs) (hne : fs ≠ [])
    (hclip : clipSeries fs vmin vmax = List.replicate fs.length (F.val q)) :
    normalize_series vals vmin vmax = .ok (List.replicate fs.length F.nan) := by
  have hn : fs.length ≠ 0 := by
    intro h0
    exact hne (List.length_eq_zero.mp h0)
  unfold normalize_series
  rw [hcast]
  simp only [hclip, seriesMin_replicate hn, List.map_replicate]
  have hsub : (F.val q).sub (F.val q) = F.val 0 := by
    simp [F.sub]
  rw [hsub]
  simp only [seriesMax_replicate hn]
  have hdiv : (F.val 0).div (F.val 0) = F.nan := by
    simp [F.div]
  simp only [hdiv]

theorem alookup_ainsert (m : List (String × String)) (k v : String) :
    alookup (ainsert m k v) k = some v := by
  induction m with
  | nil =>
    simp [ainsert, alookup, List.find?]
  | cons p t ih =>
    unfold ainsert at ih ⊢
    by_cases hp : p.1 == k
    · rw [if_pos (by simp only [List.any_cons, hp, Bool.true_or])]
      simp only [List.map_cons, if_pos hp]
      unfold alookup
      rw [List.find?_cons_of_pos _ (by simp)]
      rfl
    · by_cases ht : t.any (fun p => p.1 == k)
      · rw [if_pos (by simp only [List.any_cons, ht, Bool.or_true])]
        simp only [List.map_cons, if_neg hp]
        unfold alookup
        rw [List.find?_cons_of_neg _ (by simpa using hp)]
        rw [if_pos ht] at ih
        exact ih
      · rw [if_neg (by
          simp only [List.any_cons, Bool.or_eq_true, not_or]
          exact ⟨by simpa using hp, by simpa using ht⟩)]
        rw [List.cons_append]
        unfold alookup
        rw [List.find?_cons_of_neg _ (by simpa using hp)]
        rw [if_neg ht] at ih
        exact ih

theorem alookup_aextend_single (m : List (String × String)) (k v : String) :
    alookup (aextend m [(k, v)]) k = some v := by
  show alookup (ainsert m k v) k = some v
  exact alookup_ainsert m k v

/-- `background_gradient` on a column constant after clamping: the exact
resulting state — success, with NaN rgba values written for the whole
column. -/
theorem background_gradient_const_eq
    (st : Styler) (column : String) (vals : List AnyVal) (fs : List F)
    (color : Color) (vmin vmax : Option ℚ) (q : ℚ) (idx : ℕ)
    (hidx : st.get_col_idx column = some idx)
    (hget : st.df.cols.get? idx = some (column, vals))
    (hcast : castSeries vals = some fs) (hfne : fs ≠ [])
    (hclip : clipSeries fs vmin vmax = List.replicate fs.length (F.val q)) :
    st.background_gradient column color vmin vmax =
      .ok { st with applied_styles :=
        st.applied_styles.set idx (zipExtend (st.applied_styles.getD idx [])
          (List.replicate fs.length [("background-color", color.to_rgba F.nan)])) } := by
  have hnorm := normalize_series_const hcast hfne hclip
  unfold Styler.background_gradient Styler.apply
  rw [hidx]
  simp only [hget, Option.map_some']
  simp only [hnorm, List.map_replicate]

/-- C5 (counterexample): on the constant column `a = [1, 1]`,
`background_gradient` completes silently — no DegenerateInput (nor any
other) error is surfaced — and the division artifact shows up as
`background-color: rgba(255, 0, 0, NaN)` in every row. -/
theorem c5_background_gradient_counterexample :
    (∃ st', (Styler.new dfConst).background_gradient "a" (Color.new 255 0 0)
        none none = .ok st' ∧
      st'.applied_styles =
        [[[("background-color", (Color.new 255 0 0).to_rgba F.nan)],
          [("background-color", (Color.new 255 0 0).to_rgba F.nan)]]]) ∧
    (Color.new 255 0 0).to_rgba F.nan = "rgba(255, 0, 0, NaN)" := by
  refine ⟨⟨_, background_gradient_const_eq (Styler.new dfConst) "a"
    [AnyVal.i32 1, AnyVal.i32 1] [F.val ((1 : ℤ) : ℚ), F.val ((1 : ℤ) : ℚ)]
    (Color.new 255 0 0) none none ((1 : ℤ) : ℚ) 0 rfl rfl rfl (by simp) rfl, ?_⟩, rfl⟩
  rfl

/-- C5 (amended): for every styler and every nonempty numeric column whose
values are all equal after the optional clamping (the constant being
integral and small enough that the `f32` min cast in the source is exact),
`background_gradient` completes successfully — there is no DegenerateInput
error path — and every row of the column receives
`background-color: rgba(r, g, b, NaN)`. -/
theorem c5_background_gradient_silent (st : Styler) (column : String)
    (vals : List AnyVal) (fs : List F) (color : Color) (vmin vmax : Option ℚ)
    (q : ℚ) (idx : ℕ)
    (hrect : st.df.Rect) (hsized : st.SizedStyles)
    (hidx : st.get_col_idx column = some idx)
    (hget : st.df.cols.get? idx = some (column, vals))
    (hne : vals ≠ [])
    (hcast : castSeries vals = some fs)
    (hclip : clipSeries fs vmin vmax = List.replicate fs.length (F.val q))
    (hint : q.den = 1) (hsmall : q.num.natAbs ≤ 16777216) :
    ∃ st', st.background_gradient column color vmin vmax = .ok st' ∧
      ∀ r, r < vals.length →
        ∃ m, (st'.applied_styles.getD idx []).get? r = some m ∧
          alookup m "background-color" = some (color.to_rgba F.nan) := by
  have hlen : fs.length = vals.length := castSeries_length hcast
  have hfne : fs ≠ [] := by
    intro h0
    rw [h0] at hlen
    exact hne (List.length_eq_zero.mp hlen.symm)
  refine ⟨_, background_gradient_const_eq st column vals fs color vmin vmax q idx
    hidx hget hcast hfne hclip, ?_⟩
  intro r hr
  have hidxlt : idx < st.applied_styles.length := by
    rw [hsized.1]
    exact (List.get?_eq_some.mp hget).1
  obtain ⟨old, hold⟩ : ∃ a, st.applied_styles.get? idx = some a := by
    cases hx : st.applied_styles.get? idx with
    | none =>
      rw [List.get?_eq_none] at hx
      omega
    | some a => exact ⟨a, rfl⟩
  have holdD : st.applied_styles.getD idx [] = old := by
    rw [List.getD_eq_getElem?_getD, ← List.get?_eq_getElem?, hold]
    rfl
  have holdlen : old.length = st.df.height := hsized.2 old (List.get?_mem hold)
  have hvlen : vals.length = st.df.height :=
    hrect (column, vals) (List.get?_mem hget)
  have hsetget : ((st.applied_styles.set idx (zipExtend (st.applied_styles.getD idx [])
      (List.replicate fs.length [("background-color", color.to_rgba F.nan)]))).getD idx []) =
      zipExtend old
        (List.replicate fs.length [("background-color", color.to_rgba F.nan)]) := by
    rw [List.getD_eq_getElem?_getD, List.getElem?_set_self (by simpa using hidxlt), holdD]
    rfl
  rw [hsetget]
  unfold zipExtend
  obtain ⟨cur, hcur⟩ : ∃ a, old.get? r = some a := by
    cases hx : old.get? r with
    | none =>
      rw [List.get?_eq_none] at hx
      omega
    | some a => exact ⟨a, rfl⟩
  have hrep : (List.replicate fs.length
      [("background-color", color.to_rgba F.nan)]).get? r =
      some [("background-color", color.to_rgba F.nan)] := by
    rw [List.get?_eq_getElem?, List.getElem?_replicate, if_pos (by omega)]
  refine ⟨aextend cur [("background-color", color.to_rgba F.nan)], ?_, ?_⟩
  · rw [List.get?_append (by rw [List.length_zipWith, List.length_replicate]; omega)]
    rw [List.get?_zipWith', hcur, hrep]
    rfl
  · exact alookup_aextend_single _ _ _

/-- Witness for C5 (amended) on the concrete constant frame. -/
theorem c5_background_gradient_silent_witness :
    ∃ st', (Styler.new dfConst).background_gradient "a" (Color.new 255 0 0)
        none none = .ok st' ∧
      ∀ r, r < ([AnyVal.i32 1, AnyVal.i32 1] : List AnyVal).length →
        ∃ m, (st'.applied_styles.getD 0 []).get? r = some m ∧
          alookup m "background-color" =
            some ((Color.new 255 0 0).to_rgba F.nan) :=
  c5_background_gradient_silent (Styler.new dfConst) "a"
    [AnyVal.i32 1, AnyVal.i32 1] [F.val ((1 : ℤ) : ℚ), F.val ((1 : ℤ) : ℚ)]
    (Color.new 255 0 0) none none ((1 : ℤ) : ℚ) 0
    (by
      intro c hc
      cases hc with
      | head => rfl
      | tail _ h => cases h)
    (by
      refine ⟨rfl, ?_⟩
      intro col hc
      cases hc with
      | head => rfl
      | tail _ h => cases h)
    rfl rfl (by simp) rfl rfl (by norm_num) (by norm_num)

/-! ### C3: `from_rgb` and the end-anchored regex -/

theorem takeDigits_append : ∀ l : List Char,
    (takeDigits l).1 ++ (takeDigits l).2 = l := by
  intro l
  induction l with
  | nil => rfl
  | cons c t ih =>
    unfold takeDigits
    by_cases hc : c.isDigit
    · simp only [if_pos hc, List.cons_append, ih]
    · simp [if_neg hc]

theorem takeDigits_digits : ∀ (l : List Char), ∀ c ∈ (takeDigits l).1, c.isDigit := by
  intro l
  induction l with
  | nil => intro c hc; cases hc
  | cons x t ih =>
    intro c hc
    unfold takeDigits at hc
    by_cases hx : x.isDigit
    · rw [if_pos hx] at hc
      cases hc with
      | head => exact hx
      | tail _ h => exact ih c h
    · rw [if_neg hx] at hc
      cases hc

theorem takeDigits_stop : ∀ (l : List Char) (c : Char) (t : List Char),
    (takeDigits l).2 = c :: t → ¬c.isDigit := by
  intro l
  induction l with
  | nil => intro c t h; cases h
  | cons x xs ih =>
    intro c t h
    unfold takeDigits at h
    by_cases hx : x.isDigit
    · rw [if_pos hx] at h
      exact ih c t h
    · rw [if_neg hx] at h
      injection h with h1 _
      subst h1
      exact hx

theorem takeDigits_complete : ∀ (d r : List Char),
    (∀ c ∈ d, c.isDigit) → (∀ c t, r = c :: t → ¬c.isDigit) →
    takeDigits (d ++ r) = (d, r) := by
  intro d
  induction d with
  | nil =>
    intro r _ hr
    cases r with
    | nil => rfl
    | cons c t =>
      show takeDigits ([] ++ c :: t) = ([], c :: t)
      rw [List.nil_append]
      simp only [takeDigits]
      rw [if_neg (hr c t rfl)]
  | cons x xs ih =>
    intro r hd hr
    rw [List.cons_append]
    simp only [takeDigits]
    rw [if_pos (hd x (List.mem_cons_self x xs)),
      ih r (fun c hc => hd c (List.mem_cons_of_mem x hc)) hr]

/-- Soundness of a position match: a `some` result decomposes the input as
the exact literal with non-empty digit groups. -/
theorem matchAt_sound {l : List Char} {d1 d2 d3 : List Char}
    (h : matchAt l = some (d1, d2, d3)) :
    l = rgbLit d1 d2 d3 ∧ IsDigitStr d1 ∧ IsDigitStr d2 ∧ IsDigitStr d3 := by
  match l with
  | [] => exact absurd h (by simp [matchAt])
  | [c1] => exact absurd h (by simp [matchAt])
  | [c1, c2] => exact absurd h (by simp [matchAt])
  | [c1, c2, c3] => exact absurd h (by simp [matchAt])
  | c1 :: c2 :: c3 :: c4 :: rest =>
    simp only [matchAt] at h
    by_cases hc : c1 = 'r' ∧ c2 = 'g' ∧ c3 = 'b' ∧ c4 = '('
    · rw [if_pos hc] at h
      obtain ⟨e1, e2, e3, e4⟩ := hc
      subst e1; subst e2; subst e3; subst e4
      simp only [matchBody] at h
      by_cases h1 : (takeDigits rest).1 = []
      · rw [if_pos h1] at h
        exact absurd h (by simp)
      · rw [if_neg h1] at h
        rcases hr1 : (takeDigits rest).2 with _ | ⟨c5, _ | ⟨c6, r2⟩⟩ <;> rw [hr1] at h
        · exact absurd h (by simp)
        · exact absurd h (by simp)
        · simp only [] at h
          by_cases hsep1 : c5 = ',' ∧ c6 = ' '
          · rw [if_pos hsep1] at h
            obtain ⟨e5, e6⟩ := hsep1
            subst e5; subst e6
            by_cases h2 : (takeDigits r2).1 = []
            · rw [if_pos h2] at h
              exact absurd h (by simp)
            · rw [if_neg h2] at h
              rcases hr2 : (takeDigits r2).2 with _ | ⟨c7, _ | ⟨c8, r4⟩⟩ <;> rw [hr2] at h
              · exact absurd h (by simp)
              · exact absurd h (by simp)
              · simp only [] at h
                by_cases hsep2 : c7 = ',' ∧ c8 = ' '
                · rw [if_pos hsep2] at h
                  obtain ⟨e7, e8⟩ := hsep2
                  subst e7; subst e8
                  by_cases h3 : (takeDigits r4).1 = []
                  · rw [if_pos h3] at h
                    exact absurd h (by simp)
                  · rw [if_neg h3] at h
                    by_cases h4 : (takeDigits r4).2 = [')']
                    · rw [if_pos h4] at h
                      injection h with h'
                      injection h' with e1 h''
                      injection h'' with e2 e3
                      have k1 : rest = d1 ++ (',' :: ' ' :: r2) := by
                        have hk := (takeDigits_append rest).symm
                        rw [e1, hr1] at hk
                        exact hk
                      have k2 : r2 = d2 ++ (',' :: ' ' :: r4) := by
                        have hk := (takeDigits_append r2).symm
                        rw [e2, hr2] at hk
                        exact hk
                      have k3 : r4 = d3 ++ [')'] := by
                        have hk := (takeDigits_append r4).symm
                        rw [e3, h4] at hk
                        exact hk
                      refine ⟨?_, ⟨e1 ▸ h1, e1 ▸ takeDigits_digits rest⟩,
                        ⟨e2 ▸ h2, e2 ▸ takeDigits_digits r2⟩,
                        ⟨e3 ▸ h3, e3 ▸ takeDigits_digits r4⟩⟩
                      rw [k1, k2, k3]
                      rfl
                    · rw [if_neg h4] at h
                      exact absurd h (by simp)
                · rw [if_neg hsep2] at h
                  exact absurd h (by simp)
          · rw [if_neg hsep1] at h
            exact absurd h (by simp)
    · rw [if_neg hc] at h
      exact absurd h (by simp)

/-- Completeness of a position match on the exact literal. -/
theorem matchAt_complete {d1 d2 d3 : List Char}
    (h1 : IsDigitStr d1) (h2 : IsDigitStr d2) (h3 : IsDigitStr d3) :
    matchAt (rgbLit d1 d2 d3) = some (d1, d2, d3) := by
  have hcomma : ∀ (y : List Char) (c : Char) (t : List Char),
      (',' :: ' ' :: y) = c :: t → ¬c.isDigit := by
    intro y c t he
    injection he with e1 _
    subst e1
    decide
  have hparen : ∀ (c : Char) (t : List Char), ([')'] : List Char) = c :: t → ¬c.isDigit := by
    intro c t he
    injection he with e1 _
    subst e1
    decide
  have e1 := takeDigits_complete d1 (',' :: ' ' :: (d2 ++ ',' :: ' ' :: (d3 ++ [')'])))
    h1.2 (hcomma _)
  have e2 := takeDigits_complete d2 (',' :: ' ' :: (d3 ++ [')'])) h2.2 (hcomma _)
  have e3 := takeDigits_complete d3 [')'] h3.2 hparen
  show matchAt ('r' :: 'g' :: 'b' :: '(' ::
    (d1 ++ ',' :: ' ' :: (d2 ++ ',' :: ' ' :: (d3 ++ [')'])))) = some (d1, d2, d3)
  simp [matchAt, matchBody, e1, e2, e3, h1.1, h2.1, h3.1]

theorem isDigit_ne_r {c : Char} (h : c.isDigit) : c ≠ 'r' := by
  intro he
  subst he
  exact absurd h (by decide)

/-- No `'r'` occurs after the first character of the literal, so a second
match cannot start inside a first one. -/
theorem rgbLit_tail_no_r {d1 d2 d3 : List Char}
    (h1 : IsDigitStr d1) (h2 : IsDigitStr d2) (h3 : IsDigitStr d3) :
    'r' ∉ ('g' :: 'b' :: '(' ::
      (d1 ++ ',' :: ' ' :: (d2 ++ ',' :: ' ' :: (d3 ++ [')'])))) := by
  intro hmem
  have key : ∀ c ∈ ('g' :: 'b' :: '(' ::
      (d1 ++ ',' :: ' ' :: (d2 ++ ',' :: ' ' :: (d3 ++ [')'])))), c ≠ 'r' := by
    intro c hc
    simp only [List.mem_cons, List.mem_append] at hc
    rcases hc with rfl | rfl | rfl | hin
    · decide
    · decide
    · decide
    rcases hin with hd | hc2
    · exact isDigit_ne_r (h1.2 _ hd)
    rcases hc2 with rfl | rfl | hin2
    · decide
    · decide
    rcases hin2 with hd | hc3
    · exact isDigit_ne_r (h2.2 _ hd)
    rcases hc3 with rfl | rfl | hin3
    · decide
    · decide
    rcases hin3 with hd | hlast
    · exact isDigit_ne_r (h3.2 _ hd)
    rcases hlast with rfl | hfalse
    · decide
    · cases hfalse
  exact key 'r' hmem rfl

/-- Group uniqueness around a non-digit separator. -/
theorem sep_split_unique (sep : Char) (hsep : ¬sep.isDigit) :
    ∀ (d e X Y : List Char), (∀ c ∈ d, c.isDigit) → (∀ c ∈ e, c.isDigit) →
      d ++ sep :: X = e ++ sep :: Y → d = e ∧ X = Y := by
  intro d
  induction d with
  | nil =>
    intro e X Y _ he h
    cases e with
    | nil =>
      injection h with _ h2
      exact ⟨rfl, h2⟩
    | cons c t =>
      injection h with h1 _
      exact absurd (he c (List.mem_cons_self c t)) (h1 ▸ hsep)
  | cons x xs ih =>
    intro e X Y hd he h
    cases e with
    | nil =>
      injection h with h1 _
      exact absurd (hd x (List.mem_cons_self x xs)) (h1.symm ▸ hsep)
    | cons c t =>
      injection h with h1 h2
      subst h1
      obtain ⟨hde, hXY⟩ := ih t X Y (fun a ha => hd a (List.mem_cons_of_mem x ha))
        (fun a ha => he a (List.mem_cons_of_mem x ha)) h2
      exact ⟨by rw [hde], hXY⟩

/-- The literal determines its digit groups. -/
theorem rgbLit_inj {d1 d2 d3 e1 e2 e3 : List Char}
    (hd1 : IsDigitStr d1) (hd2 : IsDigitStr d2) (hd3 : IsDigitStr d3)
    (he1 : IsDigitStr e1) (he2 : IsDigitStr e2) (he3 : IsDigitStr e3)
    (h : rgbLit d1 d2 d3 = rgbLit e1 e2 e3) :
    d1 = e1 ∧ d2 = e2 ∧ d3 = e3 := by
  unfold rgbLit at h
  injection h with _ h; injection h with _ h; injection h with _ h
  injection h with _ h
  obtain ⟨hd, h'⟩ := sep_split_unique ',' (by decide) d1 e1 _ _ hd1.2 he1.2 h
  injection h' with _ h'
  obtain ⟨hd', h''⟩ := sep_split_unique ',' (by decide) d2 e2 _ _ hd2.2 he2.2 h'
  injection h'' with _ h''
  obtain ⟨hd'', _⟩ := sep_split_unique ')' (by decide) d3 e3 [] [] hd3.2 he3.2
    (by simpa using h'')
  exact ⟨hd, hd', hd''⟩

/-- Any two decompositions of a string as prefix-plus-literal agree. -/
theorem rgb_decomposition_unique :
    ∀ (p p' d1 d2 d3 e1 e2 e3 : List Char),
      IsDigitStr d1 → IsDigitStr d2 → IsDigitStr d3 →
      IsDigitStr e1 → IsDigitStr e2 → IsDigitStr e3 →
      p ++ rgbLit d1 d2 d3 = p' ++ rgbLit e1 e2 e3 →
      d1 = e1 ∧ d2 = e2 ∧ d3 = e3 := by
  intro p
  induction p with
  | nil =>
    intro p' d1 d2 d3 e1 e2 e3 hd1 hd2 hd3 he1 he2 he3 h
    cases p' with
    | nil =>
      exact rgbLit_inj hd1 hd2 hd3 he1 he2 he3 (by simpa using h)
    | cons x t' =>
      exfalso
      simp only [List.nil_append, List.cons_append] at h
      have hx : 'r' = x := by
        have := congrArg (fun l => List.head? l) h
        simpa [rgbLit] using this
      subst hx
      have htail : 'g' :: 'b' :: '(' ::
          (d1 ++ ',' :: ' ' :: (d2 ++ ',' :: ' ' :: (d3 ++ [')']))) =
          t' ++ rgbLit e1 e2 e3 := by
        have := congrArg List.tail h
        simpa [rgbLit] using this
      have hrin : 'r' ∈ t' ++ rgbLit e1 e2 e3 := by
        apply List.mem_append_right
        unfold rgbLit
        exact List.mem_cons_self _ _
      rw [← htail] at hrin
      exact rgbLit_tail_no_r hd1 hd2 hd3 hrin
  | cons x t ih =>
    intro p' d1 d2 d3 e1 e2 e3 hd1 hd2 hd3 he1 he2 he3 h
    cases p' with
    | nil =>
      exfalso
      simp only [List.cons_append, List.nil_append] at h
      have hx : x = 'r' := by
        have := congrArg (fun l => List.head? l) h
        simpa [rgbLit] using this
      subst hx
      have htail : t ++ rgbLit d1 d2 d3 =
          'g' :: 'b' :: '(' ::
            (e1 ++ ',' :: ' ' :: (e2 ++ ',' :: ' ' :: (e3 ++ [')']))) := by
        have := congrArg List.tail h
        simpa [rgbLit] using this
      have hrin : 'r' ∈ t ++ rgbLit d1 d2 d3 := by
        apply List.mem_append_right
        unfold rgbLit
        exact List.mem_cons_self _ _
      rw [htail] at hrin
      exact rgbLit_tail_no_r he1 he2 he3 hrin
    | cons y t' =>
      injection h with _ h2
      exact ih t' d1 d2 d3 e1 e2 e3 hd1 hd2 hd3 he1 he2 he3 h2

/-- `findMatch` succeeds whenever some suffix position matches. -/
theorem findMatch_finds : ∀ (p l : List Char) (m : List Char × List Char × List Char),
    matchAt l = some m → ∃ m', findMatch (p ++ l) = some m' := by
  intro p
  induction p with
  | nil =>
    intro l m hm
    cases l with
    | nil => exact absurd hm (by simp [matchAt])
    | cons x t =>
      refine ⟨m, ?_⟩
      rw [List.nil_append]
      simp only [findMatch]
      rw [hm]
  | cons x t ih =>
    intro l m hm
    cases h0 : matchAt (x :: (t ++ l)) with
    | some m0 =>
      refine ⟨m0, ?_⟩
      rw [List.cons_append]
      simp only [findMatch]
      rw [h0]
    | none =>
      obtain ⟨m', hm'⟩ := ih l m hm
      refine ⟨m', ?_⟩
      rw [List.cons_append]
      simp only [findMatch]
      rw [h0, hm']

/-- Soundness of `findMatch`: a hit decomposes the input. -/
theorem findMatch_sound : ∀ {s d1 d2 d3 : List Char},
    findMatch s = some (d1, d2, d3) →
    ∃ p, s = p ++ rgbLit d1 d2 d3 ∧ IsDigitStr d1 ∧ IsDigitStr d2 ∧ IsDigitStr d3 := by
  intro s
  induction s with
  | nil => intro d1 d2 d3 h; exact absurd h (by simp [findMatch])
  | cons x t ih =>
    intro d1 d2 d3 h
    simp only [findMatch] at h
    cases h0 : matchAt (x :: t) with
    | some m0 =>
      rw [h0] at h
      injection h with h'
      subst h'
      obtain ⟨hs, hd1, hd2, hd3⟩ := matchAt_sound h0
      exact ⟨[], by simpa using hs, hd1, hd2, hd3⟩
    | none =>
      rw [h0] at h
      obtain ⟨p, hp, hd1, hd2, hd3⟩ := ih h
      exact ⟨x :: p, by rw [List.cons_append, hp], hd1, hd2, hd3⟩

/-- C3 (counterexample): `"xrgb(1, 2, 3)"` is not of the claimed shape
`rgb(<int>, <int>, <int>)` — it is not the literal for any digit groups —
yet `from_rgb` succeeds on it, because the regex is anchored only at the
end. -/
theorem c3_from_rgb_counterexample :
    Color.from_rgb ceRgb = .ok (Color.new 1 2 3) ∧
    ¬∃ d1 d2 d3, ceRgb = rgbLit d1 d2 d3 := by
  constructor
  · decide
  · rintro ⟨d1, d2, d3, h⟩
    have : ceRgb.head? = some 'x' := rfl
    rw [h] at this
    unfold rgbLit at this
    injection this with h'
    exact absurd h' (by decide)

/-- C3 (amended): `from_rgb(s)` succeeds returning `Color(v1, v2, v3)` iff
some suffix of `s` (the regex is anchored at the end only, not at the
start) is the literal `rgb(<d1>, <d2>, <d3>)` with non-empty digit groups
whose values are each at most 255, and `v_i` are those values; every other
string fails with a FormatError. -/
theorem c3_from_rgb_amended (s : List Char) (c : Color) :
    Color.from_rgb s = .ok c ↔
      ∃ p d1 d2 d3, s = p ++ rgbLit d1 d2 d3 ∧
        IsDigitStr d1 ∧ IsDigitStr d2 ∧ IsDigitStr d3 ∧
        digitsVal d1 ≤ 255 ∧ digitsVal d2 ≤ 255 ∧ digitsVal d3 ≤ 255 ∧
        c = Color.new (digitsVal d1) (digitsVal d2) (digitsVal d3) := by
  constructor
  · intro h
    unfold Color.from_rgb at h
    cases hf : findMatch s with
    | none =>
      rw [hf] at h
      exact absurd h (by simp)
    | some m =>
      obtain ⟨d1, d2, d3⟩ := m
      rw [hf] at h
      simp only [] at h
      by_cases hv : digitsVal d1 ≤ 255 ∧ digitsVal d2 ≤ 255 ∧ digitsVal d3 ≤ 255
      · rw [if_pos hv] at h
        injection h with h'
        obtain ⟨p, hp, hd1, hd2, hd3⟩ := findMatch_sound hf
        exact ⟨p, d1, d2, d3, hp, hd1, hd2, hd3, hv.1, hv.2.1, hv.2.2, h'.symm⟩
      · rw [if_neg hv] at h
        exact absurd h (by simp)
  · rintro ⟨p, d1, d2, d3, hp, hd1, hd2, hd3, h1, h2, h3, hc⟩
    unfold Color.from_rgb
    have hA : matchAt (rgbLit d1 d2 d3) = some (d1, d2, d3) :=
      matchAt_complete hd1 hd2 hd3
    obtain ⟨m', hm'⟩ := findMatch_finds p (rgbLit d1 d2 d3) (d1, d2, d3) hA
    obtain ⟨e1, e2, e3⟩ := m'
    obtain ⟨p', hp', he1, he2, he3⟩ := findMatch_sound hm'
    obtain ⟨q1, q2, q3⟩ := rgb_decomposition_unique p' p e1 e2 e3 d1 d2 d3
      he1 he2 he3 hd1 hd2 hd3 (by rw [← hp', ← hp])
    subst q1; subst q2; subst q3
    rw [hp, hm']
    simp only []
    rw [if_pos ⟨h1, h2, h3⟩, hc]

/-- Witness for C3 (amended) at the repo's own test literal. -/
theorem c3_from_rgb_amended_witness :
    Color.from_rgb ("rgb(110, 50, 0)".toList) = .ok (Color.new 110 50 0) :=
  (c3_from_rgb_amended ("rgb(110, 50, 0)".toList) (Color.new 110 50 0)).mpr
    ⟨[], ['1', '1', '0'], ['5', '0'], ['0'], by decide,
      ⟨by decide, by decide⟩, ⟨by decide, by decide⟩, ⟨by decide, by decide⟩,
      by decide, by decide, by decide, by decide⟩

/-! ### C2: structure of the rendered table -/

/-- Every collected per-cell style entry addresses a real cell: its row is
below the frame's height and its column below the width. -/
theorem collect_cell_styles_bounds (st : Styler) (hsized : st.SizedStyles) :
    ∀ r c m, ((r, c), m) ∈ st.collect_cell_styles →
      r < st.df.height ∧ c < st.df.width := by
  intro r c m hmem
  unfold Styler.collect_cell_styles at hmem
  rw [List.mem_flatten] at hmem
  obtain ⟨l, hl, hel⟩ := hmem
  rw [List.mem_map] at hl
  obtain ⟨ce, hce, rfl⟩ := hl
  rw [List.mem_filterMap] at hel
  obtain ⟨re, hre, hre2⟩ := hel
  split_ifs at hre2 with hemp
  injection hre2 with h'
  have hrc : re.1 = r ∧ ce.1 = c ∧ re.2 = m := by
    injection h' with h1 h2
    injection h1 with h3 h4
    exact ⟨h3, h4, h2⟩
  obtain ⟨hr1, hc1, _⟩ := hrc
  have hcol : st.applied_styles.get? ce.1 = some ce.2 :=
    List.mk_mem_enum_iff_get?.mp (by rw [show (ce.1, ce.2) = ce from rfl]; exact hce)
  have hrow : ce.2.get? re.1 = some re.2 :=
    List.mk_mem_enum_iff_get?.mp (by rw [show (re.1, re.2) = re from rfl]; exact hre)
  constructor
  · rw [← hr1]
    have := (List.get?_eq_some.mp hrow).1
    rw [hsized.2 ce.2 (List.get?_mem hcol)] at this
    exact this
  · rw [← hc1]
    have := (List.get?_eq_some.mp hcol).1
    rw [hsized.1] at this
    exact this

/-- C2: on every render of a table with at least one column, the `<table>`
carries the fixed class `dataframe` together with every caller-supplied
extra class, its header is the resolved column labels, there is one body
row per record in original row order (row `r` shows record `r`'s formatted
values), each `<td>` carries the synthetic id `T_<hash>_row<r>_col<c>`,
and every emitted CSS rule's selector is `#` followed by the id of the
cell it styles. -/
theorem c2_render_structure (st : Styler) (hash : String) (cls : List String)
    (hrect : st.df.Rect) (hsized : st.SizedStyles)
    (hne : st.df.cols ≠ []) (hcls : st.params.table_classes = some cls) :
    ∃ out, st.render hash = .ok out ∧
      out.table.attrs = [("class", String.intercalate " " ("dataframe" :: cls))] ∧
      out.table.header = st.resolved_labels ∧
      out.table.body.length = st.df.height ∧
      (∀ r, r < st.df.height → ∃ tr, out.table.body.get? r = some tr ∧
        tr.cells.length = st.df.width ∧
        ∀ c, c < st.df.width → ∃ td name vals v,
          tr.cells.get? c = some td ∧
          td.attrs = [("id", cell_id hash r c)] ∧
          st.df.cols.get? c = some (name, vals) ∧ vals.get? r = some v ∧
          td.inner = format_value v st.params) ∧
      (∀ rule ∈ out.rules, ∃ r c m,
        ((r, c), m) ∈ st.collect_cell_styles ∧ r < st.df.height ∧ c < st.df.width ∧
        rule = ("#" ++ cell_id hash r c, css_styles m)) := by
  obtain ⟨p, ps, hcols⟩ := List.exists_cons_of_ne_nil hne
  have hpmem : p ∈ st.df.cols := by
    rw [hcols]
    exact List.mem_cons_self p ps
  have hh : p.2.length = st.df.height := hrect p hpmem
  have hwidth : st.df.cols.length = st.df.width := rfl
  unfold Styler.render
  set re : Renderer :=
    { column_labels := st.resolved_labels,
      cell_values := st.df.cols.map (fun c => c.2.map (fun v => format_value v st.params)),
      cell_styles := st.collect_cell_styles,
      hash := hash,
      classes := st.params.table_classes.getD [] } with hre
  have hcv : re.cell_values =
      (p.2.map (fun v => format_value v st.params)) ::
        ps.map (fun c => c.2.map (fun v => format_value v st.params)) := by
    rw [hre, hcols, List.map_cons]
  have hclasses : re.classes = cls := by
    rw [hre, hcls]
    rfl
  have hhash : re.hash = hash := by rw [hre]
  have hlabels : re.column_labels = st.resolved_labels := by rw [hre]
  have hcvlen : re.cell_values.length = st.df.width := by
    rw [hre]
    simp only [List.length_map]
    rfl
  have hc0len : (p.2.map (fun v => format_value v st.params)).length = st.df.height := by
    rw [List.length_map]
    exact hh
  have hrowlem : ∀ r, re.row r = ⟨(List.range re.cell_values.length).map (re.cell r)⟩ :=
    fun r => rfl
  have hcv2 : List.map (fun c => List.map (fun v => format_value v st.params) c.2) st.df.cols =
      (p.2.map (fun v => format_value v st.params)) ::
        ps.map (fun c => c.2.map (fun v => format_value v st.params)) := by
    rw [hcols, List.map_cons]
  unfold Renderer.render Renderer.table
  rw [hcv]
  refine ⟨_, rfl, ?_, ?_, ?_, ?_, ?_⟩
  · rw [hclasses]
  · rw [hlabels]
  · simp only [List.length_map, List.length_range]
    rw [List.length_map] at hc0len
    exact hc0len
  · intro r hr
    refine ⟨re.row r, ?_, ?_, ?_⟩
    · rw [List.get?_map, List.get?_range (by omega : r < (p.2.map
        (fun v => format_value v st.params)).length)]
      rfl
    · rw [hrowlem r]
      simp only [List.length_map, List.length_range]
      exact hwidth
    · intro c hc
      have hclen : c < re.cell_values.length := by omega
      obtain ⟨pc, hpc⟩ : ∃ a, st.df.cols.get? c = some a := by
        cases hx : st.df.cols.get? c with
        | none =>
          rw [List.get?_eq_none] at hx
          omega
        | some a => exact ⟨a, rfl⟩
      have hpclen : pc.2.length = st.df.height := hrect pc (List.get?_mem hpc)
      obtain ⟨v, hv⟩ : ∃ v, pc.2.get? r = some v := by
        cases hx : pc.2.get? r with
        | none =>
          rw [List.get?_eq_none] at hx
          omega
        | some v => exact ⟨v, rfl⟩
      refine ⟨re.cell r c, pc.1, pc.2, v, ?_, ?_, by rw [hpc], hv, ?_⟩
      · rw [hrowlem r]
        show ((List.range re.cell_values.length).map (re.cell r)).get? c = some (re.cell r c)
        rw [List.get?_map, List.get?_range hclen]
        rfl
      · rfl
      · have hlook1 : (st.df.cols.map
            (fun c => c.2.map (fun v => format_value v st.params))).getD c [] =
            pc.2.map (fun v => format_value v st.params) := by
          rw [List.getD_eq_getElem?_getD, ← List.get?_eq_getElem?, List.get?_map, hpc]
          rfl
        have hlook2 : (pc.2.map (fun v => format_value v st.params)).getD r "" =
            format_value v st.params := by
          rw [List.getD_eq_getElem?_getD, ← List.get?_eq_getElem?, List.get?_map, hv]
          rfl
        show ((st.df.cols.map (fun c => c.2.map
          (fun v => format_value v st.params))).getD c []).getD r "" =
            format_value v st.params
        rw [hlook1, hlook2]
  · intro rule hrule
    have hrule' : rule ∈ re.styleRules := hrule
    unfold Renderer.styleRules at hrule'
    simp only [List.mem_map] at hrule'
    obtain ⟨e, he, rfl⟩ := hrule'
    obtain ⟨⟨r, c⟩, m⟩ := e
    have he' : ((r, c), m) ∈ st.collect_cell_styles := he
    obtain ⟨hr, hc⟩ := collect_cell_styles_bounds st hsized r c m he'
    exact ⟨r, c, m, he', hr, hc, rfl⟩

/-- Witness for C2 on a concrete two-column frame whose classes were
supplied through `set_table_classes`. -/
theorem c2_render_structure_witness :
    (Styler.new dfW).set_table_classes ["extra"] = .ok stW ∧
    ∃ out, stW.render "h" = .ok out ∧
      out.table.attrs = [("class", String.intercalate " " ("dataframe" :: ["extra"]))] ∧
      out.table.header = stW.resolved_labels ∧
      out.table.body.length = stW.df.height ∧
      (∀ r, r < stW.df.height → ∃ tr, out.table.body.get? r = some tr ∧
        tr.cells.length = stW.df.width ∧
        ∀ c, c < stW.df.width → ∃ td name vals v,
          tr.cells.get? c = some td ∧
          td.attrs = [("id", cell_id "h" r c)] ∧
          stW.df.cols.get? c = some (name, vals) ∧ vals.get? r = some v ∧
          td.inner = format_value v stW.params) ∧
      (∀ rule ∈ out.rules, ∃ r c m,
        ((r, c), m) ∈ stW.collect_cell_styles ∧ r < stW.df.height ∧ c < stW.df.width ∧
        rule = ("#" ++ cell_id "h" r c, css_styles m)) :=
  ⟨rfl, c2_render_structure stW "h" ["extra"]
    (by
      intro c hc
      cases hc with
      | head => rfl
      | tail _ h =>
        cases h with
        | head => rfl
        | tail _ h' => cases h')
    (by
      refine ⟨rfl, ?_⟩
      intro col hc
      cases hc with
      | head => rfl
      | tail _ h =>
        cases h with
        | head => rfl
        | tail _ h' => cases h')
    (by decide) rfl⟩

end PolarsStyler

